import Mathlib

/-!
# IAM_Demo: role registry, vocabulary and token validation

A shallow embedding of the Go packages `models`, `services`, `handlers`,
`middleware` and `server`.

* A Go named string type (`type ActionType string`) is a one-field structure
  over `String`.
* A Go `error` is a value of `GoError`: its message together with the
  sentinel it wraps (what `errors.Is` can find), `nil` is `none`.
* `map[string]models.Role` is an association list read through `GoMap.get`;
  `GoMap.delete` drops every entry of the key and `GoMap.set` puts the new
  entry in front of what `GoMap.delete` leaves.
* The mutex of `PermissionService` guards every access, so each method is one
  atomic step: a pure function from the state to the new state and result.
  Within one call the slice `Permissions` of a role is the list of its
  elements; the section on slices shared with the caller keeps the backing
  arrays apart, for what happens to a stored role between calls.
* The token codec, which is not part of the repository, is a parameter of the
  token and HTTP code; one section gives the codec that the specification
  describes.
-/

namespace IAM

/-! ## package models -/

/-- The Go type `models.ActionType`, a named string type. -/
structure ActionType where
  val : String
deriving DecidableEq, Repr

def ActionRead : ActionType := ⟨"read"⟩
def ActionWrite : ActionType := ⟨"write"⟩
def ActionList : ActionType := ⟨"list"⟩
def ActionExport : ActionType := ⟨"export"⟩
def ActionImport : ActionType := ⟨"import"⟩
def ActionApprove : ActionType := ⟨"approve"⟩

/-- The method `func (a ActionType) IsValid() bool`: a switch over the six constants. -/
def ActionType.IsValid (a : ActionType) : Bool :=
  if a = ActionRead ∨ a = ActionWrite ∨ a = ActionList ∨ a = ActionExport
      ∨ a = ActionImport ∨ a = ActionApprove then true
  else false

/-- The method `func (a ActionType) String() string`. -/
def ActionType.String (a : ActionType) : String := a.val

/-- The Go type `models.ResourceType`, a named string type. -/
structure ResourceType where
  val : String
deriving DecidableEq, Repr

def ResourceUser : ResourceType := ⟨"user"⟩
def ResourceRole : ResourceType := ⟨"role"⟩
def ResourcePermission : ResourceType := ⟨"permission"⟩
def ResourceProduct : ResourceType := ⟨"product"⟩
def ResourceOrder : ResourceType := ⟨"order"⟩
def ResourceCustomer : ResourceType := ⟨"customer"⟩
def ResourceSystem : ResourceType := ⟨"system"⟩
def ResourceLog : ResourceType := ⟨"log"⟩
def ResourceReport : ResourceType := ⟨"report"⟩
def ResourceSetting : ResourceType := ⟨"setting"⟩

/-- The method `func (r ResourceType) IsValid() bool`: a switch over the ten constants. -/
def ResourceType.IsValid (r : ResourceType) : Bool :=
  if r = ResourceUser ∨ r = ResourceRole ∨ r = ResourcePermission
      ∨ r = ResourceProduct ∨ r = ResourceOrder ∨ r = ResourceCustomer
      ∨ r = ResourceSystem ∨ r = ResourceLog ∨ r = ResourceReport ∨ r = ResourceSetting then true
  else false

/-- The method `func (r ResourceType) String() string`. -/
def ResourceType.String (r : ResourceType) : String := r.val

/-- The Go struct `models.Permission`. -/
structure Permission where
  Resource : ResourceType
  Action : ActionType
  Description : String
deriving DecidableEq, Repr

/-- The Go type `models.RoleType`, a named string type. -/
structure RoleType where
  val : String
deriving DecidableEq, Repr

def RoleAdmin : RoleType := ⟨"admin"⟩
def RoleUser : RoleType := ⟨"user"⟩

/-- The Go struct `models.Role` (the field `Type` is written `Type_`). -/
structure Role where
  ID : Nat
  Name : String
  Type_ : RoleType
  Description : String
  Permissions : List Permission
deriving DecidableEq, Repr

/-! ## Go errors -/

/-- The three package-level error values of `services/permission.go`. -/
inductive Sentinel where
  | ErrInvalidResource
  | ErrInvalidAction
  | ErrRoleNotFound
deriving DecidableEq, Repr

/-- The text given to `errors.New` for each sentinel. -/
def Sentinel.Error : Sentinel → String
  | .ErrInvalidResource => "invalid resource type"
  | .ErrInvalidAction => "invalid action type"
  | .ErrRoleNotFound => "role not found"

/-- A non-nil Go `error`: the message `Error()` returns and the sentinel that
`errors.Is` finds by unwrapping, if any. -/
structure GoError where
  msg : String
  wrapped : Option Sentinel
deriving DecidableEq, Repr

/-- The call `fmt.Errorf("%w: %s", sentinel, arg)`. -/
def errorfWrap (e : Sentinel) (arg : String) : GoError :=
  { msg := e.Error ++ ": " ++ arg, wrapped := some e }

/-- The call `errors.New(text)`, also `fmt.Errorf` without a `%w` verb. -/
def errorsNew (text : String) : GoError :=
  { msg := text, wrapped := none }

/-- The call `errors.Is(err, sentinel)` on a possibly nil error. -/
def errorsIs (err : Option GoError) (e : Sentinel) : Bool :=
  match err with
  | none => false
  | some g => decide (g.wrapped = some e)

/-! ## Go maps keyed by strings -/

/-- The read `v, exists := m[k]`. -/
def GoMap.get {α : Type} : List (String × α) → String → Option α
  | [], _ => none
  | (k', v) :: rest, k => if k' = k then some v else GoMap.get rest k

/-- The statement `delete(m, k)`. -/
def GoMap.delete {α : Type} (m : List (String × α)) (k : String) : List (String × α) :=
  m.filter (fun e => decide (e.1 ≠ k))

/-- The statement `m[k] = v`. -/
def GoMap.set {α : Type} (m : List (String × α)) (k : String) (v : α) : List (String × α) :=
  (k, v) :: GoMap.delete m k

/-! ## package services: PermissionService -/

/-- The Go struct `services.PermissionService` (its mutex is the atomicity of each method). -/
structure PermissionService where
  roles : List (String × Role)
deriving DecidableEq, Repr

def NewPermissionService : PermissionService := { roles := [] }

/-- The validation loop at the head of `AddRole`: the first invalid field met
in sequence order decides the error. -/
def validatePermissions : List Permission → Option GoError
  | [] => none
  | perm :: rest =>
    if !perm.Resource.IsValid then
      some (errorfWrap .ErrInvalidResource perm.Resource.String)
    else if !perm.Action.IsValid then
      some (errorfWrap .ErrInvalidAction perm.Action.String)
    else validatePermissions rest

/-- The method `AddRole`: the new state and the returned error. -/
def PermissionService.AddRole (s : PermissionService) (role : Role) :
    PermissionService × Option GoError :=
  match validatePermissions role.Permissions with
  | some err => (s, some err)
  | none => ({ roles := GoMap.set s.roles role.Name role }, none)

/-- The method `RemoveRole`: the new state (it returns nothing). -/
def PermissionService.RemoveRole (s : PermissionService) (roleName : String) :
    PermissionService :=
  { roles := GoMap.delete s.roles roleName }

/-- The scan loop of `CheckPermission`: true when it reaches `return nil`. -/
def scanPermissions (resource : ResourceType) (action : ActionType) : List Permission → Bool
  | [] => false
  | perm :: rest =>
    if perm.Resource = resource ∧ perm.Action = action then true
    else scanPermissions resource action rest

/-- The method `CheckPermission`: `none` is the nil error. -/
def PermissionService.CheckPermission (s : PermissionService) (roleName : String)
    (resource : ResourceType) (action : ActionType) : Option GoError :=
  if !resource.IsValid then
    some (errorfWrap .ErrInvalidResource resource.String)
  else if !action.IsValid then
    some (errorfWrap .ErrInvalidAction action.String)
  else
    match GoMap.get s.roles roleName with
    | none => some (errorfWrap .ErrRoleNotFound roleName)
    | some role =>
      if scanPermissions resource action role.Permissions then none
      else some (errorsNew ("permission denied for role " ++ roleName ++ " to "
        ++ action.String ++ " " ++ resource.String))

/-- The method `GetRolePermissions`: the copied slice or the error. -/
def PermissionService.GetRolePermissions (s : PermissionService) (roleName : String) :
    Except GoError (List Permission) :=
  match GoMap.get s.roles roleName with
  | none => .error (errorfWrap .ErrRoleNotFound roleName)
  | some role => .ok role.Permissions

/-- The method `HasRole`. -/
def PermissionService.HasRole (s : PermissionService) (roleName : String) : Bool :=
  (GoMap.get s.roles roleName).isSome

/-! ## package server: default permissions -/

/-- The method `setupDefaultPermissions`: two `AddRole` calls whose errors are dropped. -/
def setupDefaultPermissions (permService : PermissionService) : PermissionService :=
  let s1 := (permService.AddRole
    { ID := 0, Name := "defaultUser", Type_ := RoleUser, Description := "",
      Permissions := [{ Resource := ResourceProduct, Action := ActionRead, Description := "" }] }).1
  (s1.AddRole
    { ID := 0, Name := "defaultAdmin", Type_ := RoleAdmin, Description := "",
      Permissions := [{ Resource := ResourceProduct, Action := ActionWrite, Description := "" },
                      { Resource := ResourceUser, Action := ActionWrite, Description := "" }] }).1

/-! ## The libraries outside the repository

`github.com/dgrijalva/jwt-go`, `golang.org/x/crypto/bcrypt`, `fmt` and the
built-in `float64` are not part of the repository. Their operations are the
fields of `Lib`; a theorem that names no library holds for every value of `Lib`.
-/

/-- A value stored under a key of `map[string]interface{}`, by dynamic type;
`F` stands for the values of `float64`. -/
inductive ClaimValue (F : Type) where
  | float64 (x : F)
  | string (s : String)
  | uint64 (n : Nat)
  | int64 (n : Int)
  | roleType (r : RoleType)
  | other (tag : Nat)

/-- The Go type `jwt.MapClaims`. -/
abbrev MapClaims (F : Type) := List (String × ClaimValue F)

/-- The dynamic type of `token.Method`: `*jwt.SigningMethodHMAC` or something else. -/
inductive SigningMethod where
  | HMAC (name : String)
  | notHMAC (name : String)
deriving DecidableEq, Repr

def SigningMethodHS256 : SigningMethod := .HMAC "HS256"

/-- The dynamic type of `token.Claims`: `jwt.MapClaims` or something else. -/
inductive Claims (F : Type) where
  | mapClaims (m : MapClaims F)
  | notMapClaims (tag : Nat)

/-- The fields of `jwt.Token` that `ValidateToken` and its key function read. -/
structure Token (F : Type) where
  Method : SigningMethod
  Header : List (String × ClaimValue F)
  Claims : Claims F
  Valid : Bool

/-- The operations taken from outside the repository. -/
structure Lib (F : Type) where
  /-- The conversion `int64(x)` of a `float64`. -/
  toInt64 : F → Int
  /-- The verb `%v` of `fmt` applied to `token.Header["alg"]`. -/
  formatV : Option (ClaimValue F) → String
  /-- The call `bcrypt.GenerateFromPassword(password, bcrypt.DefaultCost)`. -/
  GenerateFromPassword : String → Except GoError String
  /-- The call `jwt.NewWithClaims(method, claims).SignedString(key)`. -/
  SignedString : SigningMethod → MapClaims F → List Nat → Except GoError String
  /-- The call `jwt.Parse(tokenString, keyFunc)`: the token and the error it returns. -/
  Parse : String → (Token F → Except GoError (List Nat)) → Token F × Option GoError

/-! ## package models: User; package services: AuthService -/

/-- The Go struct `models.User` (the two `time.Time` fields are instants in seconds). -/
structure User where
  ID : Nat
  Username : String
  Password : String
  Email : String
  Role : RoleType
  CreatedAt : Int
  UpdatedAt : Int
deriving DecidableEq, Repr

/-- The Go struct `services.AuthService`: the 32 random bytes drawn by `NewAuthService`. -/
structure AuthService where
  jwtSecret : List Nat
deriving DecidableEq, Repr

/-- The method `HashPassword`. -/
def AuthService.HashPassword {F : Type} (lib : Lib F) (_s : AuthService) (password : String) :
    Except GoError String :=
  match lib.GenerateFromPassword password with
  | .error err => .error err
  | .ok hashedBytes => .ok hashedBytes

/-- The map literal of `GenerateToken`; `now` is `time.Now().Unix()` and 24 hours are 86400 seconds. -/
def tokenClaims {F : Type} (now : Int) (user : User) : MapClaims F :=
  [("user_id", .uint64 user.ID), ("role", .roleType user.Role), ("exp", .int64 (now + 86400))]

/-- The method `GenerateToken`. -/
def AuthService.GenerateToken {F : Type} (lib : Lib F) (s : AuthService) (now : Int)
    (user : User) : Except GoError String :=
  lib.SignedString SigningMethodHS256 (tokenClaims now user) s.jwtSecret

/-- The function literal that `ValidateToken` hands to `jwt.Parse`. -/
def keyFunc {F : Type} (lib : Lib F) (s : AuthService) (token : Token F) :
    Except GoError (List Nat) :=
  match token.Method with
  | .HMAC _ => .ok s.jwtSecret
  | .notHMAC _ =>
    .error (errorsNew ("unexpected signing method: " ++ lib.formatV (GoMap.get token.Header "alg")))

/-- The method `ValidateToken`; `now` is the `time.Now().Unix()` of its expiry test. -/
def AuthService.ValidateToken {F : Type} (lib : Lib F) (s : AuthService) (now : Int)
    (tokenString : String) : Except GoError (MapClaims F) :=
  match lib.Parse tokenString (keyFunc lib s) with
  | (_, some err) => .error err
  | (token, none) =>
    if !token.Valid then .error (errorsNew "invalid token")
    else
      match token.Claims with
      | .notMapClaims _ => .error (errorsNew "invalid token claims")
      | .mapClaims claims =>
        match GoMap.get claims "exp" with
        | some (.float64 exp) =>
          if now > lib.toInt64 exp then .error (errorsNew "token has expired")
          else .ok claims
        | _ => .ok claims

/-! ## package strings -/

/-- The function `strings.HasPrefix`. -/
def stringsHasPrefix (s pre : String) : Bool :=
  pre.data.isPrefixOf s.data

/-- The first-occurrence search of `strings.Replace(s, old, new, 1)` on characters, for a non-empty `old`. -/
def replaceFirst (old new : List Char) : List Char → List Char
  | [] => []
  | c :: cs =>
    if old.isPrefixOf (c :: cs) then new ++ (c :: cs).drop old.length
    else c :: replaceFirst old new cs

/-- The call `strings.Replace(s, old, new, 1)` for a non-empty `old`. -/
def stringsReplace1 (s old new : String) : String :=
  ⟨replaceFirst old.data new.data s.data⟩

/-! ## package handlers, middleware and server: the HTTP layer -/

/-- A value of a `gin.H` response body. -/
inductive HValue where
  | str (s : String)
  | role (r : RoleType)
  | h (fields : List (String × HValue))
  | list (items : List HValue)

/-- What `c.JSON(status, body)` writes. -/
structure Response where
  status : Nat
  body : List (String × HValue)

def StatusOK : Nat := 200
def StatusBadRequest : Nat := 400
def StatusUnauthorized : Nat := 401
def StatusForbidden : Nat := 403
def StatusInternalServerError : Nat := 500

/-- The Go struct `handlers.LoginRequest`. -/
structure LoginRequest where
  UserID : Nat
  Username : String
  Password : String
deriving DecidableEq, Repr

/-- The Go struct `handlers.RegisterRequest`. -/
structure RegisterRequest where
  Username : String
  Password : String
  Email : String
deriving DecidableEq, Repr

/-- The function `RegisterHandler`; `bound` is what `c.ShouldBindJSON(&req)` gave,
`nextID` what `sonyFlake.NextID()` gave. -/
def RegisterHandler {F : Type} (lib : Lib F) (bound : Except GoError RegisterRequest)
    (nextID : Nat) (now : Int) (authService : AuthService) : Response :=
  match bound with
  | .error err => ⟨StatusBadRequest, [("error", .str err.msg)]⟩
  | .ok req =>
    let role := if stringsHasPrefix req.Username "admin" then RoleAdmin else RoleUser
    match authService.HashPassword lib req.Password with
    | .error _ => ⟨StatusInternalServerError, [("error", .str "Failed to process password")]⟩
    | .ok hashedPassword =>
      let user : User :=
        { ID := nextID, Username := req.Username, Password := hashedPassword, Email := req.Email,
          Role := role, CreatedAt := 0, UpdatedAt := 0 }
      match authService.GenerateToken lib now user with
      | .error _ => ⟨StatusInternalServerError, [("error", .str "Failed to generate token")]⟩
      | .ok token =>
        ⟨StatusOK, [("token", .str token),
          ("user", .h [("username", .str user.Username), ("email", .str user.Email),
                       ("role", .role user.Role)])]⟩

/-- The function `LoginHandler`; `bound` is what `c.ShouldBindJSON(&req)` gave. -/
def LoginHandler {F : Type} (lib : Lib F) (bound : Except GoError LoginRequest)
    (now : Int) (authService : AuthService) : Response :=
  match bound with
  | .error err => ⟨StatusBadRequest, [("error", .str err.msg)]⟩
  | .ok req =>
    let role := if stringsHasPrefix req.Username "admin" then RoleAdmin else RoleUser
    match authService.GenerateToken lib now
        { ID := req.UserID, Username := "", Password := req.Password, Email := "",
          Role := role, CreatedAt := 0, UpdatedAt := 0 } with
    | .error _ => ⟨StatusInternalServerError, [("error", .str "Failed to generate token")]⟩
    | .ok token => ⟨StatusOK, [("token", .str token)]⟩

/-- The handler that `setupAdminRoutes` registers for `GET /admin/users`;
`user` is the result of `c.Get("user")`. The test `claims["role"] != "admin"`
compares an interface value with a string constant: it is equal only for the
dynamic type `string` holding "admin". -/
def adminUsersHandler {F : Type} (user : Option (MapClaims F)) : Response :=
  match user with
  | none => ⟨StatusUnauthorized, [("error", .str "User not found in context")]⟩
  | some claims =>
    match GoMap.get claims "role" with
    | some (.string "admin") =>
      ⟨StatusOK, [("message", .str "Admin only resource"),
        ("users", .list [.h [("username", .str "user1"), ("role", .str "user")],
                         .h [("username", .str "user2"), ("role", .str "user")],
                         .h [("username", .str "admin1"), ("role", .str "admin")]])]⟩
    | _ => ⟨StatusForbidden, [("error", .str "Admin access required")]⟩

/-- The function `middleware.GinAuthMiddleware` followed by the handler `next`
of the route: the middleware aborts with 401 or stores the claims under "user". -/
def GinAuthMiddleware {F : Type} (lib : Lib F) (authService : AuthService) (now : Int)
    (authHeader : String) (next : Option (MapClaims F) → Response) : Response :=
  if authHeader = "" then
    ⟨StatusUnauthorized, [("error", .str "Authorization header required")]⟩
  else
    match authService.ValidateToken lib now (stringsReplace1 authHeader "Bearer " "") with
    | .error _ => ⟨StatusUnauthorized, [("error", .str "Invalid token")]⟩
    | .ok claims => next (some claims)

/-- The route `GET /api/admin/users` as `setupProtectedRoutes` and `setupAdminRoutes` build it. -/
def apiAdminUsers {F : Type} (lib : Lib F) (authService : AuthService) (now : Int)
    (authHeader : String) : Response :=
  GinAuthMiddleware lib authService now authHeader adminUsersHandler

/-! ## A stand-in for the libraries

The library below is used to evaluate `ValidateToken` on a concrete token.
Its `float64` values are integers, the token string of a claim set is the text
of its role, and the claim set read back from a token string has that string
as role and its length as expiry time.
-/

def demoLib : Lib Int where
  toInt64 := fun x => x
  formatV := fun _ => "<value>"
  GenerateFromPassword := fun password => .ok ("hashed:" ++ password)
  SignedString := fun _ claims _ =>
    match GoMap.get claims "role" with
    | some (.roleType r) => .ok r.val
    | _ => .ok ""
  Parse := fun tokenString _ =>
    (⟨SigningMethodHS256, [("alg", .string "HS256")],
      .mapClaims [("role", .string tokenString), ("exp", .float64 (tokenString.length : Int))],
      true⟩, none)


/-! ## The token codec, from the specification

The codec of `github.com/dgrijalva/jwt-go` is not in the repository. The
definitions of this section give it as sections 4.3 and 6 of the specification
describe it: a compact string `header.payload.signature`, the signing
algorithm declared in the header, a payload that carries the claims as numbers
and strings, a symmetric MAC over `header.payload`, and the four failures
MalformedToken, UnsupportedAlgorithm, SignatureInvalid and TokenExpired.
The specification leaves open how a segment is written and which MAC is used:
the MAC function is a parameter, and a segment is written as decimal numerals
separated by commas (in place of base64url over JSON). A number of the payload
is read back as a `float64`, the type that `ValidateToken` asserts for `exp`.
-/

/-- The count of binary digits of a number, for `float64OfNat`; `fuel` at least
the number suffices. -/
def bitsOf : Nat → Nat → Nat
  | 0, _ => 0
  | fuel + 1, n => if n = 0 then 0 else bitsOf fuel (n / 2) + 1

/-- The Go conversion `float64(n)` of a natural number below 2^1024: the nearest
number with 53 significant bits, a tie going to the even one (IEEE 754 binary64). -/
def float64OfNat (n : Nat) : Nat :=
  let e := bitsOf n n - 53
  let q := n / 2 ^ e
  let r := n % 2 ^ e
  if 2 * r > 2 ^ e ∨ (2 * r = 2 ^ e ∧ q % 2 = 1) then (q + 1) * 2 ^ e else q * 2 ^ e

/-- The Go conversion `float64(z)` of an integer; the `float64` values met here
are whole numbers. -/
def float64OfInt (z : Int) : Int :=
  if z < 0 then -(float64OfNat z.natAbs : Int) else (float64OfNat z.natAbs : Int)

/-- The Go conversion `int64(x)` of a whole `float64`; outside the range of
`int64` Go leaves the result to the platform, here the smallest `int64`. -/
def int64OfFloat64 (x : Int) : Int :=
  if -(2 ^ 63) ≤ x ∧ x < 2 ^ 63 then x else -(2 ^ 63)

/-- Modelled from the spec: what the payload carries for one claim: a number or a string. -/
inductive WireValue where
  | number (z : Int)
  | text (s : String)

/-- Modelled from the spec: the payload value of a claim when the token is
encoded (section 6: `user_id` a number, `role` a string, `exp` a number);
a value of another kind cannot be encoded. -/
def wireOfClaim : ClaimValue Int → Option WireValue
  | .float64 x => some (.number x)
  | .uint64 n => some (.number n)
  | .int64 n => some (.number n)
  | .string s => some (.text s)
  | .roleType r => some (.text r.val)
  | .other _ => none

/-- Modelled from the spec: the claim read back from a payload value; a number
is read as a `float64`, which is the type `ValidateToken` asserts for `exp`. -/
def claimOfWire : WireValue → ClaimValue Int
  | .number z => .float64 (float64OfInt z)
  | .text s => .string s

/-- Modelled from the spec: the payload values of a claim set, entry by entry. -/
def wirePayload : MapClaims Int → Option (List (String × WireValue))
  | [] => some []
  | (k, v) :: rest =>
    match wireOfClaim v, wirePayload rest with
    | some w, some ws => some ((k, w) :: ws)
    | _, _ => none

/-- Modelled from the spec: the claim set read back from payload values. -/
def claimsOfWire (es : List (String × WireValue)) : MapClaims Int :=
  es.map (fun e => (e.1, claimOfWire e.2))

/-- Modelled from the spec: a string as numbers: its length, then its characters. -/
def textCells (s : String) : List Nat :=
  s.data.length :: s.data.map Char.toNat

/-- Modelled from the spec: a payload value as numbers: 0, sign and magnitude for a number; 1
and the string for a string. -/
def valueCells : WireValue → List Nat
  | .number z => [0, if z < 0 then 1 else 0, z.natAbs]
  | .text s => 1 :: textCells s

/-- Modelled from the spec: the entries of a payload as numbers: key then value, entry after
entry. -/
def entriesCells : List (String × WireValue) → List Nat
  | [] => []
  | (k, v) :: rest => textCells k ++ valueCells v ++ entriesCells rest

/-- Modelled from the spec: a payload as numbers: the count of its entries, then the entries. -/
def payloadCells (es : List (String × WireValue)) : List Nat :=
  es.length :: entriesCells es

/-- Modelled from the spec: the decimal digits of a number of a segment, most
significant first; `fuel` above the number suffices. -/
def digitsOf : Nat → Nat → List Nat
  | 0, _ => []
  | fuel + 1, n => if n < 10 then [n] else digitsOf fuel (n / 10) ++ [n % 10]

/-- Modelled from the spec: the decimal numeral of a number of a segment. -/
def numeral (n : Nat) : List Char :=
  (digitsOf (n + 1) n).map Nat.digitChar

/-- Modelled from the spec: a segment of the token: the numerals of its numbers, separated by
commas. -/
def renderCells (cells : List Nat) : List Char :=
  [','].intercalate (cells.map numeral)

/-- Modelled from the spec: the value of a decimal digit of a segment. -/
def digitValue (c : Char) : Option Nat :=
  if 48 ≤ c.toNat ∧ c.toNat ≤ 57 then some (c.toNat - 48) else none

/-- Modelled from the spec: the number a non-empty decimal numeral of a segment stands for. -/
def readNumeral (cs : List Char) : Option Nat :=
  match cs with
  | [] => none
  | _ :: _ =>
    cs.foldl (fun acc c =>
      match acc, digitValue c with
      | some a, some d => some (a * 10 + d)
      | _, _ => none) (some 0)

/-- Modelled from the spec: the numbers of a list of numerals, if all are numerals. -/
def readAll : List (List Char) → Option (List Nat)
  | [] => some []
  | cs :: rest =>
    match readNumeral cs, readAll rest with
    | some n, some ns => some (n :: ns)
    | _, _ => none

/-- Modelled from the spec: the numbers of a segment. -/
def readCells (cs : List Char) : Option (List Nat) :=
  readAll (cs.splitOn ',')

/-- Modelled from the spec: a string read from the front of a sequence of numbers, and the rest. -/
def readText : List Nat → Option (String × List Nat)
  | [] => none
  | len :: rest =>
    if rest.length < len then none
    else some (⟨(rest.take len).map Char.ofNat⟩, rest.drop len)

/-- Modelled from the spec: a payload value read from the front of a sequence of numbers, and
the rest. -/
def readValue : List Nat → Option (WireValue × List Nat)
  | 0 :: sign :: magnitude :: rest =>
    some (.number (if sign = 0 then (magnitude : Int) else -(magnitude : Int)), rest)
  | 1 :: rest =>
    match readText rest with
    | some (s, rest2) => some (.text s, rest2)
    | none => none
  | _ => none

/-- Modelled from the spec: the given count of entries read from the front of a sequence of
numbers, and the rest. -/
def readEntries : Nat → List Nat → Option (List (String × WireValue) × List Nat)
  | 0, cells => some ([], cells)
  | count + 1, cells =>
    match readText cells with
    | none => none
    | some (k, rest1) =>
      match readValue rest1 with
      | none => none
      | some (v, rest2) =>
        match readEntries count rest2 with
        | none => none
        | some (es, rest3) => some ((k, v) :: es, rest3)

/-- Modelled from the spec: the payload a sequence of numbers stands for. -/
def readPayload : List Nat → Option (List (String × WireValue))
  | [] => none
  | count :: rest =>
    match readEntries count rest with
    | some (es, []) => some es
    | _ => none

/-- Modelled from the spec: the algorithm name a header segment declares. -/
def readHeader (cells : List Nat) : Option String :=
  match readText cells with
  | some (alg, []) => some alg
  | _ => none

/-- Modelled from the spec: the signing method an algorithm name stands for: the MAC family or
another. -/
def methodOfAlg (alg : String) : SigningMethod :=
  if alg = "HS256" ∨ alg = "HS384" ∨ alg = "HS512" then .HMAC alg else .notHMAC alg

/-- Modelled from the spec: the part `header.payload` of a token, over which the MAC is taken. -/
def signingInput (alg : String) (es : List (String × WireValue)) : List Char :=
  renderCells (textCells alg) ++ '.' :: renderCells (payloadCells es)

/-- Modelled from the spec: the signing of a claim set (`SignedString` of
jwt-go, section 4.3 "signs it with the secret using a symmetric MAC-based
scheme, and returns the encoded token string"); `mac key input` is the MAC. -/
def specSignedString (mac : List Nat → String → Nat) (method : SigningMethod)
    (claims : MapClaims Int) (key : List Nat) : Except GoError String :=
  match method with
  | .notHMAC _ => .error (errorsNew "key is of invalid type")
  | .HMAC alg =>
    match wirePayload claims with
    | none => .error (errorsNew "unsupported claim value")
    | some es =>
      .ok ⟨signingInput alg es ++ '.' :: numeral (mac key ⟨signingInput alg es⟩)⟩

/-- Modelled from the spec: the codec's own expiry test: the time of the codec's clock exceeds
`exp`. -/
def claimsExpired (clock : Int) (claims : MapClaims Int) : Bool :=
  match GoMap.get claims "exp" with
  | some (.float64 exp) => decide (clock > int64OfFloat64 exp)
  | _ => false

/-- Modelled from the spec: the parsing of a token string (`jwt.Parse` of
jwt-go, section 4.3): MalformedToken when the three segments cannot be read,
the error of the key function (UnsupportedAlgorithm), SignatureInvalid when
the MAC does not match, TokenExpired when the codec's clock exceeds `exp`;
otherwise the token with `Valid` set. -/
def specParse (mac : List Nat → String → Nat) (clock : Int) (tokenString : String)
    (keyFunc : Token Int → Except GoError (List Nat)) : Token Int × Option GoError :=
  match tokenString.data.splitOn '.' with
  | [h, p, sg] =>
    match (readCells h).bind readHeader, (readCells p).bind readPayload with
    | some alg, some es =>
      let token : Token Int :=
        { Method := methodOfAlg alg, Header := [("alg", .string alg)],
          Claims := .mapClaims (claimsOfWire es), Valid := false }
      match keyFunc token with
      | .error err => (token, some err)
      | .ok key =>
        if readNumeral sg ≠ some (mac key ⟨h ++ '.' :: p⟩) then
          (token, some (errorsNew "signature is invalid"))
        else if claimsExpired clock (claimsOfWire es) then
          (token, some (errorsNew "Token is expired"))
        else ({ token with Valid := true }, none)
    | _, _ => (⟨.notHMAC "", [], .notMapClaims 0, false⟩, some (errorsNew "token is malformed"))
  | _ => (⟨.notHMAC "", [], .notMapClaims 0, false⟩, some (errorsNew "token is malformed"))

/-- Modelled from the spec: the libraries with the codec of sections 4.3 and 6;
`hash` stands for bcrypt, `mac` for the MAC, `clock` for the Unix time the
codec reads when it parses. -/
def specLib (hash : String → Except GoError String) (mac : List Nat → String → Nat)
    (clock : Int) : Lib Int where
  toInt64 := int64OfFloat64
  formatV := fun v =>
    match v with
    | some (.string s) => s
    | _ => "<nil>"
  GenerateFromPassword := hash
  SignedString := specSignedString mac
  Parse := specParse mac clock

/-- A MAC for evaluating the codec: the sum of the key bytes and of the character codes. -/
def sumMac (key : List Nat) (input : String) : Nat :=
  key.sum + (input.data.map Char.toNat).sum

/-- A password hash for evaluating the handlers. -/
def tagHash (password : String) : Except GoError String :=
  .ok ("$2a$10$" ++ password)

/-! ## Slices shared with the caller

`AddRole` stores the `models.Role` value it is given. The `Permissions` field
of that value is a slice: a header that points to a backing array, here the
array of the caller's slice, since `AddRole` makes no copy of it (only
`GetRolePermissions` copies, when it reads). The definitions of this section
keep the backing arrays apart from the slice headers, so that an assignment of
the caller to an element of its slice is seen through the stored header.
-/

/-- A Go slice `[]models.Permission`: the address of its backing array and its length. -/
structure PermissionSlice where
  array : Nat
  len : Nat
deriving DecidableEq, Repr

/-- The Go struct `models.Role` with the field `Permissions` as the slice header it holds. -/
structure RoleHeader where
  ID : Nat
  Name : String
  Type_ : RoleType
  Description : String
  Permissions : PermissionSlice
deriving DecidableEq, Repr

/-- The memory of a program that uses the service: the backing arrays by
address, and the map `roles` of the `PermissionService`. -/
structure Memory where
  arrays : List (List Permission)
  roles : List (String × RoleHeader)
deriving DecidableEq, Repr

/-- The elements that `range` over the slice visits. -/
def Memory.elems (m : Memory) (s : PermissionSlice) : List Permission :=
  (m.arrays.getD s.array []).take s.len

/-- The caller's slice literal `[]models.Permission{...}`: a new backing array and its header. -/
def Memory.sliceLiteral (m : Memory) (perms : List Permission) : Memory × PermissionSlice :=
  ({ m with arrays := m.arrays ++ [perms] }, ⟨m.arrays.length, perms.length⟩)

/-- The caller's assignment `s[i] = perm`, for `i` below the length of `s`. -/
def Memory.assign (m : Memory) (s : PermissionSlice) (i : Nat) (perm : Permission) : Memory :=
  { m with arrays := m.arrays.set s.array ((m.arrays.getD s.array []).set i perm) }

/-- The method `AddRole` on the memory: the loop reads the elements of the
slice, and `s.roles[role.Name] = role` stores the header. -/
def Memory.AddRole (m : Memory) (role : RoleHeader) : Memory × Option GoError :=
  match validatePermissions (m.elems role.Permissions) with
  | some err => (m, some err)
  | none => ({ m with roles := GoMap.set m.roles role.Name role }, none)

/-- The method `RemoveRole` on the memory. -/
def Memory.RemoveRole (m : Memory) (roleName : String) : Memory :=
  { m with roles := GoMap.delete m.roles roleName }

/-- The method `GetRolePermissions` on the memory: the copy holds the elements
that the stored header reaches when the method is called. -/
def Memory.GetRolePermissions (m : Memory) (roleName : String) :
    Except GoError (List Permission) :=
  match GoMap.get m.roles roleName with
  | none => .error (errorfWrap .ErrRoleNotFound roleName)
  | some role => .ok (m.elems role.Permissions)

/-- A caller, step 1: on an empty registry, `perms := []models.Permission{{log, read}}`. -/
def callerMakesSlice : Memory × PermissionSlice :=
  Memory.sliceLiteral ⟨[], []⟩ [⟨ResourceLog, ActionRead, ""⟩]

/-- A caller, step 2: `AddRole(models.Role{ID: 1, Name: "ops", Type: "user", Permissions: perms})`. -/
def callerAddsRole : Memory × Option GoError :=
  callerMakesSlice.1.AddRole ⟨1, "ops", RoleUser, "", callerMakesSlice.2⟩

/-- A caller, step 3: the slice is reused, `perms[0] = models.Permission{planet, read}`. -/
def callerReusesSlice : Memory :=
  callerAddsRole.1.assign callerMakesSlice.2 0 ⟨⟨"planet"⟩, ActionRead, ""⟩

/-- A caller, step 4: `AddRole(models.Role{ID: 2, Name: "ops", Type: "admin", Permissions: perms})`. -/
def callerAddsAgain : Memory × Option GoError :=
  callerReusesSlice.AddRole ⟨2, "ops", RoleAdmin, "", callerMakesSlice.2⟩

/-! ## Lemmas on maps and on the two loops -/

theorem GoMap.get_delete_self {α : Type} (m : List (String × α)) (k : String) :
    GoMap.get (GoMap.delete m k) k = none := by
  induction m with
  | nil => rfl
  | cons e rest ih =>
    obtain ⟨k', v⟩ := e
    by_cases h : k' = k
    · simpa [GoMap.delete, List.filter_cons, h] using ih
    · simpa [GoMap.delete, List.filter_cons, h, GoMap.get] using ih

theorem GoMap.get_delete_ne {α : Type} (m : List (String × α)) (k k' : String) (hne : k' ≠ k) :
    GoMap.get (GoMap.delete m k) k' = GoMap.get m k' := by
  induction m with
  | nil => rfl
  | cons e rest ih =>
    obtain ⟨k0, v⟩ := e
    by_cases h : k0 = k
    · subst h
      have h2 : ¬ k0 = k' := fun h3 => hne h3.symm
      simpa [GoMap.delete, List.filter_cons, GoMap.get, h2] using ih
    · by_cases h3 : k0 = k'
      · subst h3
        simp [GoMap.delete, List.filter_cons, h, GoMap.get]
      · simpa [GoMap.delete, List.filter_cons, h, GoMap.get, h3] using ih

theorem GoMap.get_set_self {α : Type} (m : List (String × α)) (k : String) (v : α) :
    GoMap.get (GoMap.set m k v) k = some v := by
  simp [GoMap.set, GoMap.get]

theorem GoMap.get_set_ne {α : Type} (m : List (String × α)) (k k' : String) (v : α)
    (hne : k' ≠ k) : GoMap.get (GoMap.set m k v) k' = GoMap.get m k' := by
  have h2 : ¬ k = k' := fun h => hne h.symm
  simp [GoMap.set, GoMap.get, h2, GoMap.get_delete_ne m k k' hne]

theorem GoMap.get_eq_none_iff {α : Type} (m : List (String × α)) (k : String) :
    GoMap.get m k = none ↔ ∀ e ∈ m, e.1 ≠ k := by
  induction m with
  | nil => simp [GoMap.get]
  | cons e rest ih =>
    obtain ⟨k', v⟩ := e
    by_cases h : k' = k
    · simp [GoMap.get, h]
    · simp [GoMap.get, h, ih]

theorem GoMap.mem_of_get_eq_some {α : Type} (m : List (String × α)) (k : String) (v : α)
    (h : GoMap.get m k = some v) : (k, v) ∈ m := by
  induction m with
  | nil => simp [GoMap.get] at h
  | cons e rest ih =>
    obtain ⟨k', w⟩ := e
    by_cases hk : k' = k
    · simp [GoMap.get, hk] at h
      simp [hk, h]
    · simp [GoMap.get, hk] at h
      exact List.mem_cons_of_mem _ (ih h)

theorem GoMap.delete_eq_self_of_get_eq_none {α : Type} (m : List (String × α)) (k : String)
    (h : GoMap.get m k = none) : GoMap.delete m k = m := by
  rw [GoMap.get_eq_none_iff] at h
  unfold GoMap.delete
  rw [List.filter_eq_self]
  intro e he
  simpa using h e he

theorem GoMap.delete_delete {α : Type} (m : List (String × α)) (k : String) :
    GoMap.delete (GoMap.delete m k) k = GoMap.delete m k :=
  GoMap.delete_eq_self_of_get_eq_none _ _ (GoMap.get_delete_self m k)

theorem validatePermissions_eq_none_iff (ps : List Permission) :
    validatePermissions ps = none ↔
      ∀ p ∈ ps, p.Resource.IsValid = true ∧ p.Action.IsValid = true := by
  induction ps with
  | nil => simp [validatePermissions]
  | cons p rest ih =>
    cases hr : p.Resource.IsValid <;> cases ha : p.Action.IsValid <;>
      simp [validatePermissions, hr, ha, ih]

theorem scanPermissions_eq_true_iff (resource : ResourceType) (action : ActionType)
    (ps : List Permission) :
    scanPermissions resource action ps = true ↔
      ∃ p ∈ ps, p.Resource = resource ∧ p.Action = action := by
  induction ps with
  | nil => simp [scanPermissions]
  | cons p rest ih =>
    by_cases h : p.Resource = resource ∧ p.Action = action
    · simp [scanPermissions, h]
    · have h2 : ¬ (p.Resource = resource ∧ p.Action = action) := h
      simp only [scanPermissions, if_neg h2, ih, List.mem_cons, exists_eq_or_imp]
      tauto

/-! ## The vocabulary -/

/-- C9: `ActionType(a).IsValid()` holds exactly for the six literals read, write,
list, export, import, approve; `ResourceType(r).IsValid()` holds exactly for the
ten literals user, role, permission, product, order, customer, system, log,
report, setting; the comparison is exact (the empty string and other casings
are invalid); and `String()` returns the underlying value for both types. -/
theorem isValid_iff_literal :
    (∀ a : String, (ActionType.mk a).IsValid = true ↔
      a ∈ ["read", "write", "list", "export", "import", "approve"]) ∧
    (∀ r : String, (ResourceType.mk r).IsValid = true ↔
      r ∈ ["user", "role", "permission", "product", "order", "customer",
           "system", "log", "report", "setting"]) ∧
    (ActionType.mk "").IsValid = false ∧ (ActionType.mk "Read").IsValid = false ∧
    (ActionType.mk "READ").IsValid = false ∧
    (ResourceType.mk "").IsValid = false ∧ (ResourceType.mk "User").IsValid = false ∧
    (ResourceType.mk "USER").IsValid = false ∧
    (∀ a : String, (ActionType.mk a).String = a) ∧
    (∀ r : String, (ResourceType.mk r).String = r) := by
  refine ⟨?_, ?_, by decide, by decide, by decide, by decide, by decide, by decide,
    fun _ => rfl, fun _ => rfl⟩
  · intro a
    simp [ActionType.IsValid, ActionRead, ActionWrite, ActionList, ActionExport,
      ActionImport, ActionApprove]
  · intro r
    simp [ResourceType.IsValid, ResourceUser, ResourceRole, ResourcePermission,
      ResourceProduct, ResourceOrder, ResourceCustomer, ResourceSystem, ResourceLog,
      ResourceReport, ResourceSetting]

/-! ## CheckPermission -/

/-- C1: for a valid resource and a valid action, `CheckPermission` returns the
error wrapping `ErrRoleNotFound` when no role is stored under the name;
when a role is stored it returns nil exactly when some entry of the role's
permissions has that resource and that action, and otherwise the error
"permission denied for role R to A RES", which wraps none of the three
sentinels. On the registry of `setupDefaultPermissions`: defaultAdmin may
write product, is denied read on user, and ghost is not found. -/
theorem checkPermission_valid_input :
    (∀ (s : PermissionService) (roleName : String) (resource : ResourceType)
        (action : ActionType),
      resource.IsValid = true → action.IsValid = true →
      (s.HasRole roleName = false →
        s.CheckPermission roleName resource action
          = some (errorfWrap .ErrRoleNotFound roleName)) ∧
      (∀ role, GoMap.get s.roles roleName = some role →
        (s.CheckPermission roleName resource action = none ↔
          ∃ p ∈ role.Permissions, p.Resource = resource ∧ p.Action = action) ∧
        ((¬ ∃ p ∈ role.Permissions, p.Resource = resource ∧ p.Action = action) →
          s.CheckPermission roleName resource action
            = some (errorsNew ("permission denied for role " ++ roleName ++ " to "
                ++ action.String ++ " " ++ resource.String)) ∧
          ∀ e : Sentinel,
            errorsIs (s.CheckPermission roleName resource action) e = false))) ∧
    (setupDefaultPermissions NewPermissionService).CheckPermission "defaultAdmin"
      ResourceProduct ActionWrite = none ∧
    (setupDefaultPermissions NewPermissionService).CheckPermission "defaultAdmin"
      ResourceUser ActionRead
      = some (errorsNew "permission denied for role defaultAdmin to read user") ∧
    (setupDefaultPermissions NewPermissionService).CheckPermission "ghost"
      ResourceProduct ActionWrite = some (errorfWrap .ErrRoleNotFound "ghost") := by
  refine ⟨?_, by decide, by decide, by decide⟩
  intro s roleName resource action hr ha
  constructor
  · intro hno
    have hget : GoMap.get s.roles roleName = none := by
      simpa [PermissionService.HasRole] using hno
    simp [PermissionService.CheckPermission, hr, ha, hget]
  · intro role hget
    have hscan := scanPermissions_eq_true_iff resource action role.Permissions
    constructor
    · rw [← hscan]
      cases hsc : scanPermissions resource action role.Permissions <;>
        simp [PermissionService.CheckPermission, hr, ha, hget, hsc]
    · intro hnone
      have hsc : scanPermissions resource action role.Permissions = false := by
        cases h : scanPermissions resource action role.Permissions
        · rfl
        · exact absurd (hscan.mp h) hnone
      have heq : s.CheckPermission roleName resource action
          = some (errorsNew ("permission denied for role " ++ roleName ++ " to "
                ++ action.String ++ " " ++ resource.String)) := by
        simp [PermissionService.CheckPermission, hr, ha, hget, hsc]
      refine ⟨heq, ?_⟩
      intro e
      rw [heq]
      simp [errorsIs, errorsNew]

/-- C1, at the default registry: defaultUser holds (product, read), so the
check of that pair returns nil, and the lookup of an unknown name fails. -/
theorem checkPermission_valid_input_witness :
    ((setupDefaultPermissions NewPermissionService).CheckPermission "defaultUser"
        ResourceProduct ActionRead = none ↔
      ∃ p ∈ [({ Resource := ResourceProduct, Action := ActionRead, Description := "" } :
          Permission)], p.Resource = ResourceProduct ∧ p.Action = ActionRead) ∧
    (setupDefaultPermissions NewPermissionService).CheckPermission "nobody"
        ResourceProduct ActionRead = some (errorfWrap .ErrRoleNotFound "nobody") :=
  ⟨((checkPermission_valid_input.1 (setupDefaultPermissions NewPermissionService)
      "defaultUser" ResourceProduct ActionRead (by decide) (by decide)).2
      ⟨0, "defaultUser", RoleUser, "", [⟨ResourceProduct, ActionRead, ""⟩]⟩ (by decide)).1,
   (checkPermission_valid_input.1 (setupDefaultPermissions NewPermissionService)
      "nobody" ResourceProduct ActionRead (by decide) (by decide)).1 (by decide)⟩

/-- C7: whatever the registry and the role name, `CheckPermission` returns the
error wrapping `ErrInvalidResource` with the resource value when the resource
is invalid (whatever the action), and the error wrapping `ErrInvalidAction`
with the action value when the resource is valid and the action is not; the
result is the same on every registry and for every name, it never wraps
`ErrRoleNotFound` and it is never the permission-denied error. -/
theorem checkPermission_invalid_input (s : PermissionService) (roleName : String)
    (resource : ResourceType) (action : ActionType) :
    (resource.IsValid = false →
      s.CheckPermission roleName resource action
        = some (errorfWrap .ErrInvalidResource resource.String)) ∧
    (resource.IsValid = true → action.IsValid = false →
      s.CheckPermission roleName resource action
        = some (errorfWrap .ErrInvalidAction action.String)) ∧
    ((resource.IsValid = false ∨ action.IsValid = false) →
      (∀ (s2 : PermissionService) (roleName2 : String),
        s2.CheckPermission roleName2 resource action
          = s.CheckPermission roleName resource action) ∧
      errorsIs (s.CheckPermission roleName resource action) .ErrRoleNotFound = false ∧
      s.CheckPermission roleName resource action ≠ none ∧
      ∀ text : String, s.CheckPermission roleName resource action ≠ some (errorsNew text)) := by
  refine ⟨?_, ?_, ?_⟩
  · intro hr
    simp [PermissionService.CheckPermission, hr]
  · intro hr ha
    simp [PermissionService.CheckPermission, hr, ha]
  · intro h
    cases hr : resource.IsValid
    · simp [PermissionService.CheckPermission, hr, errorsIs, errorfWrap, errorsNew]
    · have ha : action.IsValid = false := by
        rcases h with h | h
        · rw [hr] at h; cases h
        · exact h
      simp [PermissionService.CheckPermission, hr, ha, errorsIs, errorfWrap, errorsNew]

/-- C7, at the default registry: the resource "planet" and the action "fly" are
rejected for the stored name defaultAdmin. -/
theorem checkPermission_invalid_input_witness :
    (setupDefaultPermissions NewPermissionService).CheckPermission "defaultAdmin"
        ⟨"planet"⟩ ActionRead = some (errorfWrap .ErrInvalidResource "planet") ∧
    (setupDefaultPermissions NewPermissionService).CheckPermission "defaultAdmin"
        ResourceProduct ⟨"fly"⟩ = some (errorfWrap .ErrInvalidAction "fly") :=
  ⟨(checkPermission_invalid_input (setupDefaultPermissions NewPermissionService)
      "defaultAdmin" ⟨"planet"⟩ ActionRead).1 (by decide),
   (checkPermission_invalid_input (setupDefaultPermissions NewPermissionService)
      "defaultAdmin" ResourceProduct ⟨"fly"⟩).2.1 (by decide) (by decide)⟩

/-! ## AddRole and RemoveRole -/

theorem validatePermissions_of_invalid (ps : List Permission)
    (h : ∃ p ∈ ps, p.Resource.IsValid = false ∨ p.Action.IsValid = false) :
    ∃ p ∈ ps,
      (p.Resource.IsValid = false ∧
        validatePermissions ps = some (errorfWrap .ErrInvalidResource p.Resource.String)) ∨
      (p.Action.IsValid = false ∧
        validatePermissions ps = some (errorfWrap .ErrInvalidAction p.Action.String)) := by
  induction ps with
  | nil => simp at h
  | cons q rest ih =>
    cases hr : q.Resource.IsValid
    · exact ⟨q, List.mem_cons_self _ _, Or.inl ⟨hr, by simp [validatePermissions, hr]⟩⟩
    · cases ha : q.Action.IsValid
      · exact ⟨q, List.mem_cons_self _ _, Or.inr ⟨ha, by simp [validatePermissions, hr, ha]⟩⟩
      · have hrest : ∃ p ∈ rest, p.Resource.IsValid = false ∨ p.Action.IsValid = false := by
          obtain ⟨p, hp, hbad⟩ := h
          rcases List.mem_cons.mp hp with heq | hmem
          · subst heq
            rw [hr, ha] at hbad
            simp at hbad
          · exact ⟨p, hmem, hbad⟩
        obtain ⟨p, hp, hres⟩ := ih hrest
        refine ⟨p, List.mem_cons_of_mem _ hp, ?_⟩
        simpa [validatePermissions, hr, ha] using hres

/-- C2: when some permission of the role has an invalid resource or an invalid
action, `AddRole` returns an error wrapping `ErrInvalidResource` or
`ErrInvalidAction` that carries the value of an offending permission of the
role, and the registry is the same afterwards: `HasRole`, `GetRolePermissions`
and `CheckPermission` answer as before for every name. -/
theorem addRole_invalid_rejected (s : PermissionService) (role : Role)
    (h : ∃ p ∈ role.Permissions, p.Resource.IsValid = false ∨ p.Action.IsValid = false) :
    (∃ p ∈ role.Permissions,
      (p.Resource.IsValid = false ∧
        (s.AddRole role).2 = some (errorfWrap .ErrInvalidResource p.Resource.String)) ∨
      (p.Action.IsValid = false ∧
        (s.AddRole role).2 = some (errorfWrap .ErrInvalidAction p.Action.String))) ∧
    (s.AddRole role).1 = s ∧
    ∀ name : String,
      (s.AddRole role).1.HasRole name = s.HasRole name ∧
      (s.AddRole role).1.GetRolePermissions name = s.GetRolePermissions name ∧
      ∀ (resource : ResourceType) (action : ActionType),
        (s.AddRole role).1.CheckPermission name resource action
          = s.CheckPermission name resource action := by
  obtain ⟨p, hp, hres⟩ := validatePermissions_of_invalid role.Permissions h
  have hstate : (s.AddRole role).1 = s := by
    rcases hres with ⟨_, hv⟩ | ⟨_, hv⟩ <;> simp [PermissionService.AddRole, hv]
  refine ⟨⟨p, hp, ?_⟩, hstate, ?_⟩
  · rcases hres with ⟨hbad, hv⟩ | ⟨hbad, hv⟩
    · exact Or.inl ⟨hbad, by simp [PermissionService.AddRole, hv]⟩
    · exact Or.inr ⟨hbad, by simp [PermissionService.AddRole, hv]⟩
  · intro name
    rw [hstate]
    exact ⟨rfl, rfl, fun _ _ => rfl⟩

/-- C2, on the default registry: replacing defaultAdmin by a role with the
resource "planet" is refused and defaultAdmin keeps its permissions. -/
theorem addRole_invalid_rejected_witness :
    ((setupDefaultPermissions NewPermissionService).AddRole
        ⟨0, "defaultAdmin", RoleAdmin, "", [⟨⟨"planet"⟩, ActionRead, ""⟩]⟩).1
      = setupDefaultPermissions NewPermissionService :=
  (addRole_invalid_rejected (setupDefaultPermissions NewPermissionService)
    ⟨0, "defaultAdmin", RoleAdmin, "", [⟨⟨"planet"⟩, ActionRead, ""⟩]⟩
    ⟨⟨⟨"planet"⟩, ActionRead, ""⟩, by simp, Or.inl (by decide)⟩).2.1

/-- C3: for two roles of one name with only valid permissions, `AddRole(r1)`
then `AddRole(r2)` both return nil and the second role is the one stored:
`GetRolePermissions(name)` returns the permissions of r2 in their order, and
`CheckPermission(name, res, act)` returns nil exactly for the pairs present in
the permissions of r2. -/
theorem addRole_twice_overwrites (s : PermissionService) (r1 r2 : Role)
    (hname : r1.Name = r2.Name)
    (h1 : ∀ p ∈ r1.Permissions, p.Resource.IsValid = true ∧ p.Action.IsValid = true)
    (h2 : ∀ p ∈ r2.Permissions, p.Resource.IsValid = true ∧ p.Action.IsValid = true) :
    (s.AddRole r1).2 = none ∧
    ((s.AddRole r1).1.AddRole r2).2 = none ∧
    ((s.AddRole r1).1.AddRole r2).1.HasRole r1.Name = true ∧
    GoMap.get ((s.AddRole r1).1.AddRole r2).1.roles r1.Name = some r2 ∧
    ((s.AddRole r1).1.AddRole r2).1.GetRolePermissions r1.Name = .ok r2.Permissions ∧
    ∀ (resource : ResourceType) (action : ActionType),
      ((s.AddRole r1).1.AddRole r2).1.CheckPermission r1.Name resource action = none ↔
        ∃ p ∈ r2.Permissions, p.Resource = resource ∧ p.Action = action := by
  have hv1 := (validatePermissions_eq_none_iff r1.Permissions).mpr h1
  have hv2 := (validatePermissions_eq_none_iff r2.Permissions).mpr h2
  have hget : GoMap.get ((s.AddRole r1).1.AddRole r2).1.roles r1.Name = some r2 := by
    simp [PermissionService.AddRole, hv1, hv2, hname, GoMap.get_set_self]
  refine ⟨by simp [PermissionService.AddRole, hv1],
    by simp [PermissionService.AddRole, hv1, hv2],
    by simp [PermissionService.HasRole, hget],
    hget,
    by simp [PermissionService.GetRolePermissions, hget], ?_⟩
  intro resource action
  rw [← scanPermissions_eq_true_iff]
  constructor
  · intro hnil
    cases hr : resource.IsValid
    · simp [PermissionService.CheckPermission, hr] at hnil
    · cases ha : action.IsValid
      · simp [PermissionService.CheckPermission, hr, ha] at hnil
      · cases hsc : scanPermissions resource action r2.Permissions
        · simp [PermissionService.CheckPermission, hr, ha, hget, hsc] at hnil
        · rfl
  · intro hsc
    obtain ⟨p, hp, hpr, hpa⟩ := (scanPermissions_eq_true_iff _ _ _).mp hsc
    have hr : resource.IsValid = true := hpr ▸ (h2 p hp).1
    have ha : action.IsValid = true := hpa ▸ (h2 p hp).2
    simp [PermissionService.CheckPermission, hr, ha, hget, hsc]

/-- C3, on the default registry: defaultAdmin is added again with the single
permission (order, approve), which is then all that the name holds. -/
theorem addRole_twice_overwrites_witness :
    (((NewPermissionService.AddRole
        ⟨0, "defaultAdmin", RoleAdmin, "", [⟨ResourceProduct, ActionWrite, ""⟩,
          ⟨ResourceUser, ActionWrite, ""⟩]⟩).1.AddRole
        ⟨7, "defaultAdmin", RoleUser, "second", [⟨ResourceOrder, ActionApprove, "x"⟩]⟩).1
      ).GetRolePermissions "defaultAdmin" = .ok [⟨ResourceOrder, ActionApprove, "x"⟩] :=
  (addRole_twice_overwrites NewPermissionService
    ⟨0, "defaultAdmin", RoleAdmin, "", [⟨ResourceProduct, ActionWrite, ""⟩,
      ⟨ResourceUser, ActionWrite, ""⟩]⟩
    ⟨7, "defaultAdmin", RoleUser, "second", [⟨ResourceOrder, ActionApprove, "x"⟩]⟩
    rfl (by decide) (by decide)).2.2.2.2.1

/-- C8: `RemoveRole(name)` has no error result and removes exactly the entry of
the name: afterwards `HasRole(name)` is false and `GetRolePermissions(name)`
fails with the error wrapping `ErrRoleNotFound`, every other name reads as
before, an absent name leaves the registry as it was, and a second
`RemoveRole(name)` changes nothing. -/
theorem removeRole_exact (s : PermissionService) (name : String) :
    (s.RemoveRole name).HasRole name = false ∧
    (s.RemoveRole name).GetRolePermissions name
      = .error (errorfWrap .ErrRoleNotFound name) ∧
    (∀ other : String, other ≠ name →
      GoMap.get (s.RemoveRole name).roles other = GoMap.get s.roles other ∧
      (s.RemoveRole name).HasRole other = s.HasRole other ∧
      (s.RemoveRole name).GetRolePermissions other = s.GetRolePermissions other ∧
      ∀ (resource : ResourceType) (action : ActionType),
        (s.RemoveRole name).CheckPermission other resource action
          = s.CheckPermission other resource action) ∧
    (s.HasRole name = false → s.RemoveRole name = s) ∧
    (s.RemoveRole name).RemoveRole name = s.RemoveRole name := by
  have hself : GoMap.get (s.RemoveRole name).roles name = none := by
    simp [PermissionService.RemoveRole, GoMap.get_delete_self]
  refine ⟨by simp [PermissionService.HasRole, hself],
    by simp [PermissionService.GetRolePermissions, hself], ?_, ?_, ?_⟩
  · intro other hne
    have hget : GoMap.get (s.RemoveRole name).roles other = GoMap.get s.roles other := by
      simp [PermissionService.RemoveRole, GoMap.get_delete_ne _ _ _ hne]
    refine ⟨hget, by simp [PermissionService.HasRole, hget],
      by simp [PermissionService.GetRolePermissions, hget], ?_⟩
    intro resource action
    simp [PermissionService.CheckPermission, hget]
  · intro habsent
    have hnone : GoMap.get s.roles name = none := by
      simpa [PermissionService.HasRole] using habsent
    simp [PermissionService.RemoveRole, GoMap.delete_eq_self_of_get_eq_none _ _ hnone]
  · simp [PermissionService.RemoveRole, GoMap.delete_delete]

/-- C8, on the default registry: removing defaultUser keeps defaultAdmin, and
removing the absent ghost changes nothing. -/
theorem removeRole_exact_witness :
    ((setupDefaultPermissions NewPermissionService).RemoveRole "defaultUser").HasRole
        "defaultAdmin" = (setupDefaultPermissions NewPermissionService).HasRole "defaultAdmin" ∧
    (setupDefaultPermissions NewPermissionService).RemoveRole "ghost"
      = setupDefaultPermissions NewPermissionService :=
  ⟨((removeRole_exact (setupDefaultPermissions NewPermissionService) "defaultUser").2.2.1
      "defaultAdmin" (by decide)).2.1,
   (removeRole_exact (setupDefaultPermissions NewPermissionService) "ghost").2.2.2.1
      (by decide)⟩


/-! ## The stored slice and the caller -/

/-- C10, at the history that breaks it: the caller builds the slice
`[(log, read)]`, `AddRole` of the role "ops" with that slice returns nil, the
caller reuses the slice for its next argument and assigns `(planet, read)` to
its element 0, and `AddRole` of that role is refused with the error wrapping
`ErrInvalidResource`. The role stored under "ops" then holds the invalid
resource "planet", and `GetRolePermissions("ops")` returns it. -/
theorem addRole_keeps_caller_array :
    callerAddsRole.2 = none ∧
    callerAddsRole.1.GetRolePermissions "ops" = .ok [⟨ResourceLog, ActionRead, ""⟩] ∧
    callerAddsAgain.2 = some (errorfWrap .ErrInvalidResource "planet") ∧
    callerAddsAgain.1.GetRolePermissions "ops" = .ok [⟨⟨"planet"⟩, ActionRead, ""⟩] ∧
    (⟨"planet"⟩ : ResourceType).IsValid = false :=
  ⟨rfl, rfl, rfl, rfl, rfl⟩

/-! ## Token expiry -/

/-- C5: when the claims of the parsed token hold `exp` as a number `e` and the
current Unix time exceeds `int64(e)`, `ValidateToken` returns an error and no
claim set, whatever `jwt.Parse` decided: the error of `jwt.Parse` if it
returned one, "invalid token" if it cleared `Valid`, and otherwise the
"token has expired" of the comparison made by `ValidateToken` itself. -/
theorem validateToken_expired {F : Type} (lib : Lib F) (s : AuthService) (now : Int)
    (tokenString : String) (claims : MapClaims F) (exp : F)
    (hclaims : (lib.Parse tokenString (keyFunc lib s)).1.Claims = .mapClaims claims)
    (hexp : GoMap.get claims "exp" = some (.float64 exp))
    (hpast : now > lib.toInt64 exp) :
    (∃ err, s.ValidateToken lib now tokenString = .error err) ∧
    (∀ err, (lib.Parse tokenString (keyFunc lib s)).2 = some err →
      s.ValidateToken lib now tokenString = .error err) ∧
    ((lib.Parse tokenString (keyFunc lib s)).2 = none →
      (lib.Parse tokenString (keyFunc lib s)).1.Valid = false →
      s.ValidateToken lib now tokenString = .error (errorsNew "invalid token")) ∧
    ((lib.Parse tokenString (keyFunc lib s)).2 = none →
      (lib.Parse tokenString (keyFunc lib s)).1.Valid = true →
      s.ValidateToken lib now tokenString = .error (errorsNew "token has expired")) := by
  unfold AuthService.ValidateToken
  rcases hp : lib.Parse tokenString (keyFunc lib s) with ⟨token, perr⟩
  rw [hp] at hclaims
  simp only at hclaims
  cases perr with
  | some err => simp
  | none =>
    cases hv : token.Valid
    · simp [hv]
    · simp [hv, hclaims, hexp, hpast]

/-- C5, with the stand-in library: the token "abc" carries the expiry time 3
and is refused at time 10 by the comparison of `ValidateToken`. -/
theorem validateToken_expired_witness :
    AuthService.ValidateToken demoLib ⟨[1, 2, 3]⟩ 10 "abc"
      = .error (errorsNew "token has expired") :=
  (validateToken_expired demoLib ⟨[1, 2, 3]⟩ 10 "abc"
    [("role", .string "abc"), ("exp", .float64 3)] 3 rfl rfl (by decide)).2.2.2 rfl rfl


/-! ## Lemmas on the token codec -/

theorem digitsOf_lt_ten (fuel n : Nat) : ∀ d ∈ digitsOf fuel n, d < 10 := by
  induction fuel generalizing n with
  | zero => intro d hd; simp [digitsOf] at hd
  | succ fuel ih =>
    intro d hd
    unfold digitsOf at hd
    split at hd
    · simp at hd; omega
    · rcases List.mem_append.mp hd with h | h
      · exact ih _ d h
      · simp at h; omega

theorem digitsOf_ne_nil (fuel n : Nat) : digitsOf (fuel + 1) n ≠ [] := by
  unfold digitsOf
  split <;> simp

theorem digitsOf_value (fuel n : Nat) (h : n < fuel) :
    (digitsOf fuel n).foldl (fun a d => a * 10 + d) 0 = n := by
  induction fuel generalizing n with
  | zero => omega
  | succ fuel ih =>
    unfold digitsOf
    split
    · simp
    · rw [List.foldl_append, ih (n / 10) (by omega)]
      simp
      omega

theorem digitValue_digitChar (d : Nat) (h : d < 10) : digitValue (Nat.digitChar d) = some d := by
  interval_cases d <;> rfl

theorem digitChar_ne_comma (d : Nat) (h : d < 10) : Nat.digitChar d ≠ ',' := by
  interval_cases d <;> decide

theorem digitChar_ne_dot (d : Nat) (h : d < 10) : Nat.digitChar d ≠ '.' := by
  interval_cases d <;> decide

theorem foldl_digitChar (ds : List Nat) (hds : ∀ d ∈ ds, d < 10) (a : Nat) :
    (ds.map Nat.digitChar).foldl (fun acc c =>
      match acc, digitValue c with
      | some a, some d => some (a * 10 + d)
      | _, _ => none) (some a) = some (ds.foldl (fun a d => a * 10 + d) a) := by
  induction ds generalizing a with
  | nil => rfl
  | cons d rest ih =>
    have hd : d < 10 := hds d (List.mem_cons_self _ _)
    simp only [List.map_cons, List.foldl_cons, digitValue_digitChar d hd]
    exact ih (fun x hx => hds x (List.mem_cons_of_mem _ hx)) _

theorem readNumeral_numeral (n : Nat) : readNumeral (numeral n) = some n := by
  have hne : numeral n ≠ [] := by
    simp [numeral, digitsOf_ne_nil]
  have hfold := foldl_digitChar (digitsOf (n + 1) n) (digitsOf_lt_ten _ _) 0
  rw [digitsOf_value (n + 1) n (by omega)] at hfold
  unfold readNumeral
  cases hc : numeral n with
  | nil => exact absurd hc hne
  | cons c cs =>
    simp only
    rw [← hc]
    exact hfold

theorem comma_not_mem_numeral (n : Nat) : ',' ∉ numeral n := by
  intro h
  obtain ⟨d, hd, hc⟩ := List.mem_map.mp h
  exact digitChar_ne_comma d (digitsOf_lt_ten _ _ d hd) hc

theorem dot_not_mem_numeral (n : Nat) : '.' ∉ numeral n := by
  intro h
  obtain ⟨d, hd, hc⟩ := List.mem_map.mp h
  exact digitChar_ne_dot d (digitsOf_lt_ten _ _ d hd) hc

theorem readAll_numerals (cells : List Nat) : readAll (cells.map numeral) = some cells := by
  induction cells with
  | nil => rfl
  | cons n rest ih => simp [readAll, readNumeral_numeral, ih]

theorem readCells_renderCells (cells : List Nat) (h : cells ≠ []) :
    readCells (renderCells cells) = some cells := by
  unfold readCells renderCells
  rw [List.splitOn_intercalate]
  · exact readAll_numerals cells
  · intro l hl
    obtain ⟨n, _, hn⟩ := List.mem_map.mp hl
    rw [← hn]
    exact comma_not_mem_numeral n
  · simpa using h

theorem mem_of_mem_intersperse {α : Type} (sep : α) (xs : List α) :
    ∀ x ∈ xs.intersperse sep, x = sep ∨ x ∈ xs := by
  induction xs with
  | nil => intro x hx; simp at hx
  | cons a rest ih =>
    cases rest with
    | nil => intro x hx; exact Or.inr (by simpa using hx)
    | cons b rest2 =>
      intro x hx
      simp only [List.intersperse_cons₂, List.mem_cons] at hx
      rcases hx with h | h | h
      · exact Or.inr (by simp [h])
      · exact Or.inl h
      · rcases ih x h with h2 | h2
        · exact Or.inl h2
        · exact Or.inr (List.mem_cons_of_mem _ h2)

theorem dot_not_mem_renderCells (cells : List Nat) : '.' ∉ renderCells cells := by
  intro h
  unfold renderCells List.intercalate at h
  obtain ⟨l, hl, hmem⟩ := List.mem_flatten.mp h
  rcases mem_of_mem_intersperse _ _ l hl with h1 | h1
  · rw [h1] at hmem
    simp at hmem
  · obtain ⟨n, _, hn⟩ := List.mem_map.mp h1
    rw [← hn] at hmem
    exact dot_not_mem_numeral n hmem

theorem readText_textCells (s : String) (rest : List Nat) :
    readText (textCells s ++ rest) = some (s, rest) := by
  have hlen : ¬ (s.data.map Char.toNat ++ rest).length < s.data.length := by
    simp
  have hmap : (s.data.map Char.toNat).map Char.ofNat = s.data := by
    rw [List.map_map]
    conv => rhs; rw [← List.map_id s.data]
    apply List.map_congr_left
    intro c _
    simp
  simp only [textCells, List.cons_append, readText, hlen, if_false]
  have htake : (s.data.map Char.toNat ++ rest).take s.data.length = s.data.map Char.toNat := by
    rw [List.take_append_of_le_length (by simp)]
    rw [List.take_of_length_le (by simp)]
  have hdrop : (s.data.map Char.toNat ++ rest).drop s.data.length = rest := by
    rw [List.drop_append_of_le_length (by simp)]
    rw [List.drop_of_length_le (by simp)]
    rfl
  rw [htake, hdrop, hmap]

theorem readValue_valueCells (v : WireValue) (rest : List Nat) :
    readValue (valueCells v ++ rest) = some (v, rest) := by
  cases v with
  | number z =>
    by_cases hz : z < 0
    · have hval : -((z.natAbs : Nat) : Int) = z := by omega
      simp only [valueCells, hz, if_true, List.cons_append, List.nil_append, readValue]
      simp only [one_ne_zero, if_false, hval]
    · have hval : ((z.natAbs : Nat) : Int) = z := by omega
      simp only [valueCells, hz, if_false, List.cons_append, List.nil_append, readValue]
      simp only [if_true, hval]
  | text s =>
    simp [valueCells, readValue, readText_textCells]

theorem readEntries_entriesCells (es : List (String × WireValue)) (rest : List Nat) :
    readEntries es.length (entriesCells es ++ rest) = some (es, rest) := by
  induction es with
  | nil => rfl
  | cons e tail ih =>
    obtain ⟨k, v⟩ := e
    simp only [List.length_cons, entriesCells, List.append_assoc, readEntries,
      readText_textCells, readValue_valueCells, ih]

theorem readPayload_payloadCells (es : List (String × WireValue)) :
    readPayload (payloadCells es) = some es := by
  have h := readEntries_entriesCells es []
  rw [List.append_nil] at h
  simp [payloadCells, readPayload, h]

theorem readHeader_textCells (alg : String) : readHeader (textCells alg) = some alg := by
  have h := readText_textCells alg []
  rw [List.append_nil] at h
  simp [readHeader, h]

theorem splitOn_token (h p sg : List Char) (hh : '.' ∉ h) (hp : '.' ∉ p) (hsg : '.' ∉ sg) :
    ((h ++ '.' :: p) ++ '.' :: sg).splitOn '.' = [h, p, sg] := by
  have key : (['.'].intercalate [h, p, sg]).splitOn '.' = [h, p, sg] :=
    List.splitOn_intercalate [h, p, sg] '.'
      (by intro l hl; simp at hl; rcases hl with rfl | rfl | rfl <;> assumption) (by simp)
  simpa [List.intercalate, List.intersperse] using key

theorem bitsOf_le (fuel n k : Nat) (h : n < 2 ^ k) : bitsOf fuel n ≤ k := by
  induction fuel generalizing n k with
  | zero => simp [bitsOf]
  | succ fuel ih =>
    unfold bitsOf
    split
    · omega
    · rename_i hn
      cases k with
      | zero => simp at h; omega
      | succ k =>
        have hhalf : n / 2 < 2 ^ k := by
          rw [Nat.pow_succ] at h
          omega
        have := ih (n / 2) k hhalf
        omega

theorem float64OfNat_exact (n : Nat) (h : n < 2 ^ 53) : float64OfNat n = n := by
  have he : bitsOf n n - 53 = 0 := by
    have := bitsOf_le n n 53 h
    omega
  simp [float64OfNat, he, Nat.mod_one]

theorem float64OfInt_exact (z : Int) (h1 : -(2 ^ 53) < z) (h2 : z < 2 ^ 53) :
    float64OfInt z = z := by
  have hn : z.natAbs < 2 ^ 53 := by omega
  unfold float64OfInt
  rw [float64OfNat_exact _ hn]
  split <;> omega

theorem specParse_signed (mac : List Nat → String → Nat) (clock : Int) (alg : String)
    (es : List (String × WireValue)) (key : List Nat)
    (keyFunc : Token Int → Except GoError (List Nat))
    (hkey : keyFunc ⟨methodOfAlg alg, [("alg", .string alg)],
      .mapClaims (claimsOfWire es), false⟩ = .ok key) :
    specParse mac clock
        ⟨signingInput alg es ++ '.' :: numeral (mac key ⟨signingInput alg es⟩)⟩ keyFunc
      = if claimsExpired clock (claimsOfWire es) then
          (⟨methodOfAlg alg, [("alg", .string alg)], .mapClaims (claimsOfWire es), false⟩,
            some (errorsNew "Token is expired"))
        else
          (⟨methodOfAlg alg, [("alg", .string alg)], .mapClaims (claimsOfWire es), true⟩,
            none) := by
  have hsplit := splitOn_token (renderCells (textCells alg)) (renderCells (payloadCells es))
    (numeral (mac key ⟨signingInput alg es⟩))
    (dot_not_mem_renderCells _) (dot_not_mem_renderCells _) (dot_not_mem_numeral _)
  have hh : (readCells (renderCells (textCells alg))).bind readHeader = some alg := by
    rw [readCells_renderCells _ (by simp [textCells])]
    simp [readHeader_textCells]
  have hp : (readCells (renderCells (payloadCells es))).bind readPayload = some es := by
    rw [readCells_renderCells _ (by simp [payloadCells])]
    simp [readPayload_payloadCells]
  unfold specParse
  simp only [signingInput] at hsplit ⊢
  rw [hsplit]
  simp only [hh, hp, hkey, readNumeral_numeral, ne_eq, not_true_eq_false, if_false]

theorem wirePayload_tokenClaims (now : Int) (user : User) :
    wirePayload (tokenClaims now user)
      = some [("user_id", .number user.ID), ("role", .text user.Role.val),
              ("exp", .number (now + 86400))] := by
  rfl

theorem validateToken_generateToken (hash : String → Except GoError String)
    (mac : List Nat → String → Nat) (signClock clock now issued : Int) (s : AuthService)
    (user : User)
    (hlow : -(2 ^ 53) < issued + 86400) (hhigh : issued + 86400 < 2 ^ 53)
    (hclock : clock ≤ issued + 86400) (hnow : now ≤ issued + 86400) :
    ∃ t : String,
      s.GenerateToken (specLib hash mac signClock) issued user = .ok t ∧
      s.ValidateToken (specLib hash mac clock) now t
        = .ok [("user_id", .float64 (float64OfInt user.ID)), ("role", .string user.Role.val),
               ("exp", .float64 (issued + 86400))] := by
  have hexp := float64OfInt_exact (issued + 86400) hlow hhigh
  have hconv : int64OfFloat64 (issued + 86400) = issued + 86400 := by
    unfold int64OfFloat64
    rw [if_pos]
    constructor <;> omega
  have hclaims : claimsOfWire [("user_id", .number user.ID), ("role", .text user.Role.val),
      ("exp", .number (issued + 86400))]
      = [("user_id", .float64 (float64OfInt user.ID)), ("role", .string user.Role.val),
         ("exp", .float64 (issued + 86400))] := by
    simp [claimsOfWire, claimOfWire, hexp]
  refine ⟨⟨signingInput "HS256" [("user_id", .number user.ID), ("role", .text user.Role.val),
      ("exp", .number (issued + 86400))] ++ '.' :: numeral (mac s.jwtSecret
        ⟨signingInput "HS256" [("user_id", .number user.ID), ("role", .text user.Role.val),
          ("exp", .number (issued + 86400))]⟩)⟩, ?_, ?_⟩
  · simp only [AuthService.GenerateToken, specLib, specSignedString, SigningMethodHS256,
      wirePayload_tokenClaims]
  · have hparse := specParse_signed mac clock "HS256"
      [("user_id", .number user.ID), ("role", .text user.Role.val),
       ("exp", .number (issued + 86400))] s.jwtSecret
      (keyFunc (specLib hash mac clock) s) (by simp [keyFunc, methodOfAlg])
    have hnot : claimsExpired clock
        (claimsOfWire [("user_id", .number user.ID), ("role", .text user.Role.val),
          ("exp", .number (issued + 86400))]) = false := by
      rw [hclaims]
      have hle : ¬ clock > issued + 86400 := by omega
      simp [claimsExpired, GoMap.get, hconv, hle]
    rw [hnot] at hparse
    simp only [Bool.false_eq_true, if_false] at hparse
    unfold AuthService.ValidateToken
    simp only [specLib] at hparse ⊢
    rw [hparse]
    simp only [Bool.not_true, Bool.false_eq_true, if_false]
    rw [hclaims]
    have hle : ¬ now > issued + 86400 := by omega
    simp [GoMap.get, hconv, hle]

theorem validateToken_generateToken_late (hash : String → Except GoError String)
    (mac : List Nat → String → Nat) (signClock clock now issued : Int) (s : AuthService)
    (user : User)
    (hlate : clock > int64OfFloat64 (float64OfInt (issued + 86400))) :
    ∃ t : String,
      s.GenerateToken (specLib hash mac signClock) issued user = .ok t ∧
      s.ValidateToken (specLib hash mac clock) now t
        = .error (errorsNew "Token is expired") := by
  refine ⟨⟨signingInput "HS256" [("user_id", .number user.ID), ("role", .text user.Role.val),
      ("exp", .number (issued + 86400))] ++ '.' :: numeral (mac s.jwtSecret
        ⟨signingInput "HS256" [("user_id", .number user.ID), ("role", .text user.Role.val),
          ("exp", .number (issued + 86400))]⟩)⟩, ?_, ?_⟩
  · simp only [AuthService.GenerateToken, specLib, specSignedString, SigningMethodHS256,
      wirePayload_tokenClaims]
  · have hparse := specParse_signed mac clock "HS256"
      [("user_id", .number user.ID), ("role", .text user.Role.val),
       ("exp", .number (issued + 86400))] s.jwtSecret
      (keyFunc (specLib hash mac clock) s) (by simp [keyFunc, methodOfAlg])
    have hyes : claimsExpired clock
        (claimsOfWire [("user_id", .number user.ID), ("role", .text user.Role.val),
          ("exp", .number (issued + 86400))]) = true := by
      simp [claimsExpired, claimsOfWire, claimOfWire, GoMap.get, hlate]
    rw [hyes] at hparse
    simp only [if_true] at hparse
    unfold AuthService.ValidateToken
    simp only [specLib] at hparse ⊢
    rw [hparse]

/-! ## The token round trip -/

/-- C4, amended: with the codec of the specification, for one `AuthService`
and every identity, `ValidateToken` applied to the string that
`GenerateToken` returned, at any time up to the expiry 24 hours after the
issue (for Unix times of absolute value below 2^53), returns no error and a
claim set whose role is the string of the identity's role and whose `user_id`
is the `float64` nearest to the identity's id: the id itself whenever it is
below 2^53. -/
theorem token_round_trip (hash : String → Except GoError String)
    (mac : List Nat → String → Nat) (signClock clock now issued : Int) (s : AuthService)
    (user : User)
    (hlow : -(2 ^ 53) < issued + 86400) (hhigh : issued + 86400 < 2 ^ 53)
    (hclock : clock ≤ issued + 86400) (hnow : now ≤ issued + 86400) :
    ∃ (t : String) (claims : MapClaims Int),
      s.GenerateToken (specLib hash mac signClock) issued user = .ok t ∧
      s.ValidateToken (specLib hash mac clock) now t = .ok claims ∧
      GoMap.get claims "role" = some (.string user.Role.val) ∧
      GoMap.get claims "user_id" = some (.float64 (float64OfInt user.ID)) ∧
      (user.ID < 2 ^ 53 → GoMap.get claims "user_id" = some (.float64 user.ID)) := by
  obtain ⟨t, hgen, hval⟩ := validateToken_generateToken hash mac signClock clock now issued
    s user hlow hhigh hclock hnow
  refine ⟨t, _, hgen, hval, by simp [GoMap.get], by simp [GoMap.get], ?_⟩
  intro hid
  have hexact : float64OfInt (user.ID : Int) = user.ID :=
    float64OfInt_exact _ (by omega) (by exact_mod_cast hid)
  simp [GoMap.get, hexact]

/-- C4, amended, for the identity with id 42 and role "user": issued at time
1000 and validated at time 2000, the claims are `user_id` 42 and role "user". -/
theorem token_round_trip_witness :
    ∃ (t : String) (claims : MapClaims Int),
      AuthService.GenerateToken (specLib tagHash sumMac 1000) ⟨[1, 2, 3]⟩ 1000
        ⟨42, "", "", "", RoleUser, 0, 0⟩ = .ok t ∧
      AuthService.ValidateToken (specLib tagHash sumMac 2000) ⟨[1, 2, 3]⟩ 2000 t = .ok claims ∧
      GoMap.get claims "role" = some (.string "user") ∧
      GoMap.get claims "user_id" = some (.float64 42) := by
  obtain ⟨t, claims, hgen, hval, hrole, _, hid⟩ :=
    token_round_trip tagHash sumMac 1000 2000 2000 1000 ⟨[1, 2, 3]⟩
      ⟨42, "", "", "", RoleUser, 0, 0⟩ (by decide) (by decide) (by decide) (by decide)
  exact ⟨t, claims, hgen, hval, hrole, hid (by decide)⟩

/-- C4, as stated, fails for the identity with id 9007199254740993 (2^53 + 1)
and role "user": validated at the time of issue, the token gives no error and
the `user_id` 9007199254740992, which is not the id. It also fails for a
clock beyond 2^53: a token issued at time 36028797018877571 expires at
2^55 + 3 and carries the expiry 2^55, so one second before its expiry it is
refused as expired. -/
theorem token_round_trip_large_id :
    (∃ (t : String) (claims : MapClaims Int),
      AuthService.GenerateToken (specLib tagHash sumMac 1000) ⟨[1, 2, 3]⟩ 1000
        ⟨9007199254740993, "", "", "", RoleUser, 0, 0⟩ = .ok t ∧
      AuthService.ValidateToken (specLib tagHash sumMac 1000) ⟨[1, 2, 3]⟩ 1000 t = .ok claims ∧
      GoMap.get claims "user_id" = some (.float64 9007199254740992) ∧
      GoMap.get claims "user_id" ≠ some (.float64 9007199254740993)) ∧
    (36028797018877571 + 86400 = (2 : Int) ^ 55 + 3 ∧
     ∃ t : String,
      AuthService.GenerateToken (specLib tagHash sumMac 36028797018877571) ⟨[1, 2, 3]⟩
        36028797018877571 ⟨42, "", "", "", RoleUser, 0, 0⟩ = .ok t ∧
      AuthService.ValidateToken (specLib tagHash sumMac (2 ^ 55 + 2)) ⟨[1, 2, 3]⟩
        (2 ^ 55 + 2) t = .error (errorsNew "Token is expired")) := by
  constructor
  · obtain ⟨t, hgen, hval⟩ := validateToken_generateToken tagHash sumMac 1000 1000 1000 1000
      ⟨[1, 2, 3]⟩ ⟨9007199254740993, "", "", "", RoleUser, 0, 0⟩
      (by decide) (by decide) (by decide) (by decide)
    have hround : float64OfInt ((9007199254740993 : Nat) : Int) = 9007199254740992 := by decide
    have hget : GoMap.get
        ([("user_id", .float64 (float64OfInt ((9007199254740993 : Nat) : Int))),
          ("role", .string RoleUser.val), ("exp", .float64 (1000 + 86400))] : MapClaims Int)
        "user_id" = some (.float64 9007199254740992) := by
      rw [hround]
      simp [GoMap.get]
    refine ⟨t, _, hgen, hval, hget, ?_⟩
    rw [hget]
    intro h
    injection h with h2
    injection h2 with h3
    exact absurd h3 (by decide)
  · refine ⟨by decide, ?_⟩
    exact validateToken_generateToken_late tagHash sumMac 36028797018877571 (2 ^ 55 + 2)
      (2 ^ 55 + 2) 36028797018877571 ⟨[1, 2, 3]⟩ ⟨42, "", "", "", RoleUser, 0, 0⟩ (by decide)

/-! ## The admin role and the admin route -/

theorem stringsHasPrefix_iff (s pre : String) :
    stringsHasPrefix s pre = true ↔ ∃ rest : String, s = pre ++ rest := by
  unfold stringsHasPrefix
  rw [List.isPrefixOf_iff_prefix]
  constructor
  · rintro ⟨t, ht⟩
    refine ⟨⟨t⟩, ?_⟩
    apply String.ext
    simp [String.data_append, ht]
  · rintro ⟨rest, hrest⟩
    refine ⟨rest.data, ?_⟩
    rw [hrest, String.data_append]

theorem adminUsersHandler_admin {F : Type} (claims : MapClaims F)
    (h : GoMap.get claims "role" = some (.string "admin")) :
    (adminUsersHandler (some claims)).status = StatusOK := by
  simp [adminUsersHandler, h]

theorem adminUsersHandler_other {F : Type} (claims : MapClaims F)
    (h : GoMap.get claims "role" ≠ some (.string "admin")) :
    (adminUsersHandler (some claims)).status = StatusForbidden := by
  unfold adminUsersHandler
  split
  · rename_i heq
    cases heq
  · rename_i c heq
    cases heq
    split
    · rename_i hrole
      exact absurd hrole h
    · rfl

theorem stringsReplace1_bearer (t : String) :
    stringsReplace1 ("Bearer " ++ t) "Bearer " "" = t := by
  apply String.ext
  have hdata : ("Bearer " ++ t).data = 'B' :: 'e' :: 'a' :: 'r' :: 'e' :: 'r' :: ' ' :: t.data := by
    rw [String.data_append]
    rfl
  have hold : "Bearer ".data = ['B', 'e', 'a', 'r', 'e', 'r', ' '] := rfl
  have hnew : "".data = [] := rfl
  simp only [stringsReplace1, hdata, hold, hnew, replaceFirst]
  simp

theorem bearer_ne_empty (t : String) : "Bearer " ++ t ≠ "" := by
  intro h
  have hdata := congrArg String.data h
  rw [String.data_append] at hdata
  have hold : "Bearer ".data = ['B', 'e', 'a', 'r', 'e', 'r', ' '] := rfl
  rw [hold] at hdata
  simp at hdata

theorem apiAdminUsers_of_claims {F : Type} (lib : Lib F) (authService : AuthService)
    (now : Int) (authHeader : String) (claims : MapClaims F) (hhead : authHeader ≠ "")
    (hvalid : authService.ValidateToken lib now (stringsReplace1 authHeader "Bearer " "")
      = .ok claims) :
    apiAdminUsers lib authService now authHeader = adminUsersHandler (some claims) := by
  simp [apiAdminUsers, GinAuthMiddleware, hhead, hvalid]

theorem apiAdminUsers_signed (hash : String → Except GoError String)
    (mac : List Nat → String → Nat) (signClock clock now issued : Int)
    (authService : AuthService) (user : User)
    (hlow : -(2 ^ 53) < issued + 86400) (hhigh : issued + 86400 < 2 ^ 53)
    (hclock : clock ≤ issued + 86400) (hnow : now ≤ issued + 86400) :
    ∃ t : String,
      authService.GenerateToken (specLib hash mac signClock) issued user = .ok t ∧
      (user.Role = RoleAdmin →
        (apiAdminUsers (specLib hash mac clock) authService now ("Bearer " ++ t)).status
          = StatusOK) ∧
      (user.Role ≠ RoleAdmin →
        (apiAdminUsers (specLib hash mac clock) authService now ("Bearer " ++ t)).status
          = StatusForbidden) := by
  obtain ⟨t, hgen, hval⟩ := validateToken_generateToken hash mac signClock clock now issued
    authService user hlow hhigh hclock hnow
  have hroute := apiAdminUsers_of_claims (specLib hash mac clock) authService now
    ("Bearer " ++ t) _ (bearer_ne_empty t) (by rw [stringsReplace1_bearer]; exact hval)
  refine ⟨t, hgen, ?_, ?_⟩
  · intro hrole
    rw [hroute]
    apply adminUsersHandler_admin
    simp [GoMap.get, hrole, RoleAdmin]
  · intro hrole
    rw [hroute]
    apply adminUsersHandler_other
    intro h
    apply hrole
    have hval2 : user.Role.val = "admin" := by
      simpa [GoMap.get] using h
    cases hr : user.Role with
    | mk v =>
      rw [hr] at hval2
      simp only at hval2
      rw [hval2]
      rfl

theorem apiAdminUsers_no_header {F : Type} (lib : Lib F) (authService : AuthService)
    (now : Int) : (apiAdminUsers lib authService now "").status = StatusUnauthorized := by
  simp [apiAdminUsers, GinAuthMiddleware]

theorem apiAdminUsers_invalid {F : Type} (lib : Lib F) (authService : AuthService)
    (now : Int) (authHeader : String) (err : GoError)
    (hbad : authService.ValidateToken lib now (stringsReplace1 authHeader "Bearer " "")
      = .error err) :
    (apiAdminUsers lib authService now authHeader).status = StatusUnauthorized := by
  by_cases hhead : authHeader = ""
  · subst hhead
    exact apiAdminUsers_no_header lib authService now
  · simp [apiAdminUsers, GinAuthMiddleware, hhead, hbad]

/-- C6: the login and register handlers sign a claim set whose role is admin
exactly when the username begins with "admin" and user otherwise, and answer
200 with the signed token. The route `/api/admin/users` answers 401 to a
request without header or with a token that `ValidateToken` refuses, 200 to an
authenticated request whose role claim is the string "admin" and 403 to an
authenticated request with any other role claim, so it answers 200 exactly
for authenticated requests with the role claim "admin". With the codec of the
specification the two are linked: the token that the login or the register
handler returned, sent as `Bearer` token before its expiry, is answered with
200 when the username begins with "admin" and with 403 otherwise; so the
login of "normaluser" is refused with 403 and the registration of "adminuser"
is admitted with 200. -/
theorem admin_role_and_route :
    (∀ {F : Type} (lib : Lib F) (authService : AuthService) (now : Int) (req : LoginRequest),
      ∃ (role : RoleType) (claims : MapClaims F),
      (role = RoleAdmin ↔ ∃ rest : String, req.Username = "admin" ++ rest) ∧
      (role = RoleUser ↔ ¬ ∃ rest : String, req.Username = "admin" ++ rest) ∧
      GoMap.get claims "role" = some (.roleType role) ∧
      GoMap.get claims "user_id" = some (.uint64 req.UserID) ∧
      LoginHandler lib (.ok req) now authService =
        (match lib.SignedString SigningMethodHS256 claims authService.jwtSecret with
          | .ok token => ⟨StatusOK, [("token", .str token)]⟩
          | .error _ =>
            ⟨StatusInternalServerError, [("error", .str "Failed to generate token")]⟩)) ∧
    (∀ {F : Type} (lib : Lib F) (authService : AuthService) (now : Int)
        (req : RegisterRequest) (nextID : Nat) (hashed : String),
      lib.GenerateFromPassword req.Password = .ok hashed →
      ∃ (role : RoleType) (claims : MapClaims F),
      (role = RoleAdmin ↔ ∃ rest : String, req.Username = "admin" ++ rest) ∧
      (role = RoleUser ↔ ¬ ∃ rest : String, req.Username = "admin" ++ rest) ∧
      GoMap.get claims "role" = some (.roleType role) ∧
      GoMap.get claims "user_id" = some (.uint64 nextID) ∧
      RegisterHandler lib (.ok req) nextID now authService =
        (match lib.SignedString SigningMethodHS256 claims authService.jwtSecret with
          | .ok token =>
            ⟨StatusOK, [("token", .str token),
              ("user", .h [("username", .str req.Username), ("email", .str req.Email),
                           ("role", .role role)])]⟩
          | .error _ =>
            ⟨StatusInternalServerError, [("error", .str "Failed to generate token")]⟩)) ∧
    (∀ {F : Type} (lib : Lib F) (authService : AuthService) (now : Int) (authHeader : String),
      (authHeader = "" →
        (apiAdminUsers lib authService now authHeader).status = StatusUnauthorized) ∧
      (∀ err : GoError,
        authService.ValidateToken lib now (stringsReplace1 authHeader "Bearer " "")
          = .error err →
        (apiAdminUsers lib authService now authHeader).status = StatusUnauthorized) ∧
      (∀ claims : MapClaims F, authHeader ≠ "" →
        authService.ValidateToken lib now (stringsReplace1 authHeader "Bearer " "")
          = .ok claims →
        (GoMap.get claims "role" = some (.string "admin") →
          (apiAdminUsers lib authService now authHeader).status = StatusOK) ∧
        (GoMap.get claims "role" ≠ some (.string "admin") →
          (apiAdminUsers lib authService now authHeader).status = StatusForbidden)) ∧
      ((apiAdminUsers lib authService now authHeader).status = StatusOK ↔
        authHeader ≠ "" ∧ ∃ claims : MapClaims F,
          authService.ValidateToken lib now (stringsReplace1 authHeader "Bearer " "")
            = .ok claims ∧
          GoMap.get claims "role" = some (.string "admin"))) ∧
    (∀ (hash : String → Except GoError String) (mac : List Nat → String → Nat)
        (signClock clock now issued : Int) (authService : AuthService) (req : LoginRequest),
      -(2 ^ 53) < issued + 86400 → issued + 86400 < 2 ^ 53 →
      clock ≤ issued + 86400 → now ≤ issued + 86400 →
      ∃ t : String,
        LoginHandler (specLib hash mac signClock) (.ok req) issued authService
          = ⟨StatusOK, [("token", .str t)]⟩ ∧
        ((apiAdminUsers (specLib hash mac clock) authService now ("Bearer " ++ t)).status
            = StatusOK ↔ ∃ rest : String, req.Username = "admin" ++ rest) ∧
        ((¬ ∃ rest : String, req.Username = "admin" ++ rest) →
          (apiAdminUsers (specLib hash mac clock) authService now ("Bearer " ++ t)).status
            = StatusForbidden)) ∧
    (∀ (hash : String → Except GoError String) (mac : List Nat → String → Nat)
        (signClock clock now issued : Int) (authService : AuthService)
        (req : RegisterRequest) (nextID : Nat) (hashed : String),
      hash req.Password = .ok hashed →
      -(2 ^ 53) < issued + 86400 → issued + 86400 < 2 ^ 53 →
      clock ≤ issued + 86400 → now ≤ issued + 86400 →
      ∃ (t : String) (role : RoleType),
        RegisterHandler (specLib hash mac signClock) (.ok req) nextID issued authService
          = ⟨StatusOK, [("token", .str t),
              ("user", .h [("username", .str req.Username), ("email", .str req.Email),
                           ("role", .role role)])]⟩ ∧
        ((apiAdminUsers (specLib hash mac clock) authService now ("Bearer " ++ t)).status
            = StatusOK ↔ ∃ rest : String, req.Username = "admin" ++ rest) ∧
        ((¬ ∃ rest : String, req.Username = "admin" ++ rest) →
          (apiAdminUsers (specLib hash mac clock) authService now ("Bearer " ++ t)).status
            = StatusForbidden)) := by
  have hne : RoleAdmin ≠ RoleUser := by decide
  have hstatus : StatusForbidden ≠ StatusOK := by decide
  have hstatus2 : StatusUnauthorized ≠ StatusOK := by decide
  refine ⟨?_, ?_, ?_, ?_, ?_⟩
  · intro F lib authService now req
    cases hpre : stringsHasPrefix req.Username "admin"
    · have hnot : ¬ ∃ rest : String, req.Username = "admin" ++ rest := by
        rw [← stringsHasPrefix_iff, hpre]; simp
      refine ⟨RoleUser, tokenClaims now ⟨req.UserID, "", req.Password, "", RoleUser, 0, 0⟩,
        ?_, ?_, rfl, rfl, ?_⟩
      · exact ⟨fun h => absurd h.symm hne, fun h => absurd h hnot⟩
      · exact ⟨fun _ => hnot, fun _ => rfl⟩
      · simp only [LoginHandler, hpre, AuthService.GenerateToken, if_true, if_false,
          Bool.false_eq_true]
        generalize lib.SignedString _ _ _ = r
        cases r <;> rfl
    · have hyes : ∃ rest : String, req.Username = "admin" ++ rest :=
        (stringsHasPrefix_iff _ _).mp hpre
      refine ⟨RoleAdmin, tokenClaims now ⟨req.UserID, "", req.Password, "", RoleAdmin, 0, 0⟩,
        ?_, ?_, rfl, rfl, ?_⟩
      · exact ⟨fun _ => hyes, fun _ => rfl⟩
      · exact ⟨fun h => absurd h hne, fun h => absurd hyes h⟩
      · simp only [LoginHandler, hpre, AuthService.GenerateToken, if_true, if_false,
          Bool.false_eq_true]
        generalize lib.SignedString _ _ _ = r
        cases r <;> rfl
  · intro F lib authService now req nextID hashed hhash
    cases hpre : stringsHasPrefix req.Username "admin"
    · have hnot : ¬ ∃ rest : String, req.Username = "admin" ++ rest := by
        rw [← stringsHasPrefix_iff, hpre]; simp
      refine ⟨RoleUser,
        tokenClaims now ⟨nextID, req.Username, hashed, req.Email, RoleUser, 0, 0⟩,
        ?_, ?_, rfl, rfl, ?_⟩
      · exact ⟨fun h => absurd h.symm hne, fun h => absurd h hnot⟩
      · exact ⟨fun _ => hnot, fun _ => rfl⟩
      · simp only [RegisterHandler, hpre, AuthService.HashPassword, hhash,
          AuthService.GenerateToken, if_true, if_false, Bool.false_eq_true]
        generalize lib.SignedString _ _ _ = r
        cases r <;> rfl
    · have hyes : ∃ rest : String, req.Username = "admin" ++ rest :=
        (stringsHasPrefix_iff _ _).mp hpre
      refine ⟨RoleAdmin,
        tokenClaims now ⟨nextID, req.Username, hashed, req.Email, RoleAdmin, 0, 0⟩,
        ?_, ?_, rfl, rfl, ?_⟩
      · exact ⟨fun _ => hyes, fun _ => rfl⟩
      · exact ⟨fun h => absurd h hne, fun h => absurd hyes h⟩
      · simp only [RegisterHandler, hpre, AuthService.HashPassword, hhash,
          AuthService.GenerateToken, if_true, if_false, Bool.false_eq_true]
        generalize lib.SignedString _ _ _ = r
        cases r <;> rfl
  · intro F lib authService now authHeader
    refine ⟨?_, ?_, ?_, ?_⟩
    · intro hhead
      rw [hhead]
      exact apiAdminUsers_no_header lib authService now
    · intro err hbad
      exact apiAdminUsers_invalid lib authService now authHeader err hbad
    · intro claims hhead hvalid
      rw [apiAdminUsers_of_claims lib authService now authHeader claims hhead hvalid]
      exact ⟨adminUsersHandler_admin claims, adminUsersHandler_other claims⟩
    · constructor
      · intro hok
        by_cases hhead : authHeader = ""
        · rw [hhead, apiAdminUsers_no_header] at hok
          exact absurd hok hstatus2
        · refine ⟨hhead, ?_⟩
          cases hv : authService.ValidateToken lib now
              (stringsReplace1 authHeader "Bearer " "") with
          | error err =>
            rw [apiAdminUsers_invalid lib authService now authHeader err hv] at hok
            exact absurd hok hstatus2
          | ok claims =>
            refine ⟨claims, rfl, ?_⟩
            by_contra hrole
            rw [apiAdminUsers_of_claims lib authService now authHeader claims hhead hv,
              adminUsersHandler_other claims hrole] at hok
            exact absurd hok hstatus
      · rintro ⟨hhead, claims, hvalid, hrole⟩
        rw [apiAdminUsers_of_claims lib authService now authHeader claims hhead hvalid]
        exact adminUsersHandler_admin claims hrole
  · intro hash mac signClock clock now issued authService req hlow hhigh hclock hnow
    cases hpre : stringsHasPrefix req.Username "admin"
    · have hnot : ¬ ∃ rest : String, req.Username = "admin" ++ rest := by
        rw [← stringsHasPrefix_iff, hpre]; simp
      obtain ⟨t, hgen, _, huser⟩ := apiAdminUsers_signed hash mac signClock clock now issued
        authService ⟨req.UserID, "", req.Password, "", RoleUser, 0, 0⟩ hlow hhigh hclock hnow
      have h403 := huser (fun h => hne h.symm)
      refine ⟨t, ?_, ?_, fun _ => h403⟩
      · simp only [LoginHandler, hpre, if_false, Bool.false_eq_true, hgen]
      · rw [h403]
        exact ⟨fun h => absurd h hstatus, fun h => absurd h hnot⟩
    · have hyes : ∃ rest : String, req.Username = "admin" ++ rest :=
        (stringsHasPrefix_iff _ _).mp hpre
      obtain ⟨t, hgen, hadmin, _⟩ := apiAdminUsers_signed hash mac signClock clock now issued
        authService ⟨req.UserID, "", req.Password, "", RoleAdmin, 0, 0⟩ hlow hhigh hclock hnow
      have h200 := hadmin rfl
      refine ⟨t, ?_, ?_, fun h => absurd hyes h⟩
      · simp only [LoginHandler, hpre, if_true, hgen]
      · rw [h200]
        exact ⟨fun _ => hyes, fun _ => rfl⟩
  · intro hash mac signClock clock now issued authService req nextID hashed hhash
      hlow hhigh hclock hnow
    have hhash2 : (specLib hash mac signClock).GenerateFromPassword req.Password
        = .ok hashed := hhash
    cases hpre : stringsHasPrefix req.Username "admin"
    · have hnot : ¬ ∃ rest : String, req.Username = "admin" ++ rest := by
        rw [← stringsHasPrefix_iff, hpre]; simp
      obtain ⟨t, hgen, _, huser⟩ := apiAdminUsers_signed hash mac signClock clock now issued
        authService ⟨nextID, req.Username, hashed, req.Email, RoleUser, 0, 0⟩
        hlow hhigh hclock hnow
      have h403 := huser (fun h => hne h.symm)
      refine ⟨t, RoleUser, ?_, ?_, fun _ => h403⟩
      · simp only [RegisterHandler, hpre, if_false, Bool.false_eq_true,
          AuthService.HashPassword, hhash2, hgen]
      · rw [h403]
        exact ⟨fun h => absurd h hstatus, fun h => absurd h hnot⟩
    · have hyes : ∃ rest : String, req.Username = "admin" ++ rest :=
        (stringsHasPrefix_iff _ _).mp hpre
      obtain ⟨t, hgen, hadmin, _⟩ := apiAdminUsers_signed hash mac signClock clock now issued
        authService ⟨nextID, req.Username, hashed, req.Email, RoleAdmin, 0, 0⟩
        hlow hhigh hclock hnow
      have h200 := hadmin rfl
      refine ⟨t, RoleAdmin, ?_, ?_, fun h => absurd hyes h⟩
      · simp only [RegisterHandler, hpre, if_true, AuthService.HashPassword, hhash2, hgen]
      · rw [h200]
        exact ⟨fun _ => hyes, fun _ => rfl⟩

/-- C6, for the two requests of the tests: the token of the login of
"normaluser" is answered with 403 by the admin route, and the token of the
registration of "adminuser" with 200. -/
theorem admin_role_and_route_witness :
    (∃ t : String,
      LoginHandler (specLib tagHash sumMac 1000) (.ok ⟨0, "normaluser", "password123"⟩) 1000
        ⟨[1, 2, 3]⟩ = ⟨StatusOK, [("token", .str t)]⟩ ∧
      (apiAdminUsers (specLib tagHash sumMac 1001) ⟨[1, 2, 3]⟩ 1001 ("Bearer " ++ t)).status
        = StatusForbidden) ∧
    (∃ (t : String) (role : RoleType),
      RegisterHandler (specLib tagHash sumMac 1000)
        (.ok ⟨"adminuser", "admin123", "admin@example.com"⟩) 77 1000 ⟨[1, 2, 3]⟩
        = ⟨StatusOK, [("token", .str t),
            ("user", .h [("username", .str "adminuser"), ("email", .str "admin@example.com"),
                         ("role", .role role)])]⟩ ∧
      (apiAdminUsers (specLib tagHash sumMac 1001) ⟨[1, 2, 3]⟩ 1001 ("Bearer " ++ t)).status
        = StatusOK) := by
  constructor
  · obtain ⟨t, hlogin, _, h403⟩ := admin_role_and_route.2.2.2.1 tagHash sumMac 1000 1001 1001
      1000 ⟨[1, 2, 3]⟩ ⟨0, "normaluser", "password123"⟩
      (by decide) (by decide) (by decide) (by decide)
    refine ⟨t, hlogin, h403 ?_⟩
    rw [← stringsHasPrefix_iff]
    decide
  · obtain ⟨t, role, hreg, h200, _⟩ := admin_role_and_route.2.2.2.2 tagHash sumMac 1000 1001
      1001 1000 ⟨[1, 2, 3]⟩ ⟨"adminuser", "admin123", "admin@example.com"⟩ 77
      "$2a$10$admin123" (congrArg Except.ok (by decide)) (by decide) (by decide) (by decide)
      (by decide)
    refine ⟨t, role, hreg, h200.mpr ?_⟩
    rw [← stringsHasPrefix_iff]
    decide

end IAM
